import Mathlib

/-!
Verification of the bilingual schedule utilities of the `gosim paris2026`
repository (`src/utils/bilingual.ts`, `src/utils/schedule-validator.ts` and
the standalone `validate-schedule` CLI script).

The TypeScript code operates on already-parsed JSON data.  A bilingual text
field may hold a plain string, an object with optional `en` / `zh` string
fields, or be `null` / `undefined`.  We embed those value shapes shallowly:

* `TextVal.str s`    — a plain JavaScript string;
* `TextVal.obj en zh` — an object whose `en` / `zh` fields may be absent
  (`Option.none` models an absent field, `some ""` a present empty string);
* `TextVal.undef`    — `null` or `undefined` (the code under scrutiny treats
  the two identically everywhere it branches on them: both are falsy, both
  fail `typeof x === 'string'`; the one place where `typeof null === 'object'`
  could be observed, the speaker-name coercion, is reached only for values
  that earlier validation already rejects, and is noted at its definition).

Collections: a JS array field that may also be `null` / `undefined` /
non-array is modelled as `Option (List _)`; a JS object used as a string map
is modelled as an association list in key-insertion order (which is exactly
`Object.keys` enumeration order for the string keys used here).

Machine integers do not occur; all numbers are list indices (`Nat`).
-/

namespace Paris2026

/-! ### JavaScript string primitives -/

/-- The whitespace class used both by `String.prototype.trim` and by the
regex class `\s` (restricted to the code points that can actually occur in
the repository's data; the exotic Unicode space separators behave
identically). -/
def jsIsWhitespace (c : Char) : Bool :=
  c == ' ' || c == '\t' || c == '\n' || c == '\r' ||
  c == '\x0b' || c == '\x0c' || c == ' '

/-- `trim()` on the character list: drop whitespace from both ends. -/
def jsTrimList (l : List Char) : List Char :=
  ((l.dropWhile jsIsWhitespace).reverse.dropWhile jsIsWhitespace).reverse

/-- JavaScript `String.prototype.trim`. -/
def jsTrim (s : String) : String :=
  ⟨jsTrimList s.data⟩

/-- Does `l` start with `p`?  (Helper for substring search.) -/
def listHasPre (l p : List Char) : Bool :=
  match l, p with
  | _, [] => true
  | [], _ :: _ => false
  | c :: cs, d :: ds => c == d && listHasPre cs ds

/-- Does `l` contain `sub` as a contiguous run?  (Helper for `includes`.) -/
def listHasSub (sub : List Char) : List Char → Bool
  | [] => sub.isEmpty
  | c :: cs => listHasPre (c :: cs) sub || listHasSub sub cs

/-- JavaScript `String.prototype.includes`. -/
def strIncludes (s sub : String) : Bool :=
  listHasSub sub.data s.data

/-- JavaScript `String.prototype.toLowerCase`, character by character
(ASCII letters; the CJK characters appearing in the data are unaffected by
lower-casing). -/
def jsToLower (s : String) : String :=
  ⟨s.data.map Char.toLower⟩

/-! ### The bilingual text value model -/

/-- Language context, `'en' | 'zh'`. -/
inductive Lang where
  | en
  | zh
deriving DecidableEq

/-- Rendering of a `Lang` as the JS string `'en'` / `'zh'` (used inside
template-literal messages). -/
def langStr : Lang → String
  | .en => "en"
  | .zh => "zh"

/-- A value inhabiting a bilingual text position:
`BilingualText | string | null | undefined`. -/
inductive TextVal where
  | str (s : String)
  | obj (en zh : Option String)
  | undef
deriving DecidableEq

/-- JavaScript truthiness of a `TextVal` (`''`, `null`, `undefined` are
falsy; every object is truthy). -/
def truthy : TextVal → Bool
  | .str s => s != ""
  | .obj _ _ => true
  | .undef => false

/-! ### `getBilingualText` (bilingual.ts lines 61–93) -/

/-- `getBilingualText(textObj, currentLang, fallback)`, translated branch by
branch from the source. -/
def getBilingualText (textObj : TextVal) (currentLang : Lang) (fallback : String) : String :=
  match textObj with
  | .str s => s
  | .undef => fallback
  | .obj en zh =>
    -- `typeof textObj === 'object' && ('en' in textObj || 'zh' in textObj)`
    if en.isSome || zh.isSome then
      let zhText := zh.getD ""
      let enText := en.getD ""
      if zhText != "" && enText != "" then
        (if currentLang == Lang.zh then zhText else enText)
      else if zhText != "" then zhText
      else if enText != "" then enText
      else fallback
    else fallback

/-- The accessor contract exactly as the specification words it (claim C2):
plain strings pass through verbatim; `null`/`undefined` yields the fallback;
for an object, both-non-empty selects the requested language, exactly one
non-empty wins regardless of the request, both empty yields the fallback.
A second definition written from the spec, to be compared with
`getBilingualText` which is written from the source. -/
def getBilingualTextSpec (textObj : TextVal) (currentLang : Lang) (fallback : String) : String :=
  match textObj with
  | .str s => s
  | .undef => fallback
  | .obj en zh =>
    let e := en.getD ""
    let z := zh.getD ""
    if e != "" && z != "" then (if currentLang == Lang.zh then z else e)
    else if e != "" then e
    else if z != "" then z
    else fallback

/-! ### Entity records (bilingual.ts interfaces, with the JS looseness the
validators actually probe for) -/

/-- `BilingualDay`. -/
structure BilingualDay where
  date : TextVal
  title : TextVal
  url : TextVal
deriving DecidableEq

/-- `BilingualCategory`.  A missing `id` is modelled by `""` (both are falsy
and fail `.trim()`, which is all the code tests). -/
structure BilingualCategory where
  name : TextVal
  room : TextVal
  id : String
deriving DecidableEq

/-- `BilingualSpeaker`.  `tags = none` models a value that is not an array
(including a missing field); `image = ""` models a missing image. -/
structure BilingualSpeaker where
  id : String
  name : TextVal
  roleOrg : TextVal
  tags : Option (List String)
  image : String
deriving DecidableEq

/-- `BilingualSession`.  `speakers = none` models a `null`/`undefined`
speakers field (not an array); an absent optional `room` is `TextVal.undef`. -/
structure BilingualSession where
  date : TextVal
  timeSlot : String
  title : TextVal
  content : TextVal
  speakers : Option (List BilingualSpeaker)
  category : Option String
  isSpecialEvent : Option Bool
  room : TextVal
deriving DecidableEq

/-- `BilingualScheduleData`.  Each top-level field may fail to be the
expected collection (`none`); `sessions` is an association list in key
insertion order, a bucket value of `none` modelling a `null` (non-array)
bucket. -/
structure BilingualScheduleData where
  days : Option (List BilingualDay)
  categories : Option (List BilingualCategory)
  sessions : Option (List (String × Option (List BilingualSession)))
deriving DecidableEq

/-! ### Validation results (bilingual.ts lines 336–347) -/

/-- The `severity` tag of a `ValidationError`. -/
inductive Severity where
  | error
  | warning
deriving DecidableEq

/-- `ValidationError`. -/
structure ValidationError where
  field : String
  message : String
  severity : Severity
  context : Option String
deriving DecidableEq

/-- `ValidationResult`. -/
structure ValidationResult where
  isValid : Bool
  errors : List ValidationError
  warnings : List ValidationError
deriving DecidableEq

/-- An error entry without context. -/
def mkError (f m : String) : ValidationError := ⟨f, m, .error, none⟩

/-- An error entry with context. -/
def mkErrorCtx (f m c : String) : ValidationError := ⟨f, m, .error, some c⟩

/-- A warning entry without context. -/
def mkWarning (f m : String) : ValidationError := ⟨f, m, .warning, none⟩

/-- A warning entry with context. -/
def mkWarningCtx (f m c : String) : ValidationError := ⟨f, m, .warning, some c⟩

/-! ### `validateBilingualText` (bilingual.ts lines 356–430) -/

/-- Message `Required field '<f>' is missing or empty`. -/
def reqMsg (f : String) : String :=
  "Required field \x27" ++ f ++ "\x27 is missing or empty"

/-- Message for a plain-string bilingual field. -/
def strWarnMsg (f : String) : String :=
  "Field \x27" ++ f ++ "\x27 is a string but should be bilingual object for full internationalization support"

/-- Message `Field '<f>' is an empty string`. -/
def emptyStrMsg (f : String) : String :=
  "Field \x27" ++ f ++ "\x27 is an empty string"

/-- Message for an object with no non-empty language. -/
def noLangMsg (f : String) : String :=
  "Field \x27" ++ f ++ "\x27 must have at least one non-empty language version (en or zh)"

/-- Message for a missing English translation. -/
def missingEnMsg (f : String) : String :=
  "Field \x27" ++ f ++ "\x27 is missing English translation"

/-- Message for a missing Chinese translation. -/
def missingZhMsg (f : String) : String :=
  "Field \x27" ++ f ++ "\x27 is missing Chinese translation"

/-- `typeof textObj === 'string' && !textObj.trim()`. -/
def strWithEmptyTrim : TextVal → Bool
  | .str s => jsTrim s == ""
  | _ => false

/-- `textObj.en && typeof textObj.en === 'string' && textObj.en.trim()`
(truthiness of a language slot of a bilingual object). -/
def optTrimNonempty : Option String → Bool
  | some s => jsTrim s != ""
  | none => false

/-- `validateBilingualText(textObj, fieldName, required)`. -/
def validateBilingualText (textObj : TextVal) (fieldName : String) (required : Bool) :
    ValidationResult :=
  if required && (!truthy textObj || strWithEmptyTrim textObj) then
    ⟨false, [mkError fieldName (reqMsg fieldName)], []⟩
  else if !truthy textObj then
    ⟨true, [], []⟩
  else
    match textObj with
    | .str s =>
      if jsTrim s != "" then
        ⟨true, [], [mkWarning fieldName (strWarnMsg fieldName)]⟩
      else
        ⟨false, [mkError fieldName (emptyStrMsg fieldName)], []⟩
    | .obj en zh =>
      let hasEn := optTrimNonempty en
      let hasZh := optTrimNonempty zh
      if !hasEn && !hasZh then
        ⟨false, [mkError fieldName (noLangMsg fieldName)], []⟩
      else
        ⟨true, [],
          (if !hasEn then [mkWarning fieldName (missingEnMsg fieldName)] else []) ++
          (if !hasZh then [mkWarning fieldName (missingZhMsg fieldName)] else [])⟩
    | .undef => ⟨true, [], []⟩

/-! ### Entity validators (bilingual.ts lines 438–623) -/

/-- `validateBilingualSpeaker(speaker, context)`. -/
def validateBilingualSpeaker (speaker : BilingualSpeaker) (context : String) :
    ValidationResult :=
  let idErrs :=
    if jsTrim speaker.id == "" then
      [mkErrorCtx "speaker.id" "Speaker ID is required and must be a non-empty string" context]
    else []
  let imageWarns :=
    if jsTrim speaker.image == "" then
      [mkWarningCtx "speaker.image" "Speaker image is missing" context]
    else []
  let tagWarns :=
    if speaker.tags.isNone then
      [mkWarningCtx "speaker.tags" "Speaker tags should be an array" context]
    else []
  let nameV := validateBilingualText speaker.name "speaker.name" true
  let roleV := validateBilingualText speaker.roleOrg "speaker.roleOrg" true
  let errors := idErrs ++ nameV.errors ++ roleV.errors
  ⟨errors.length == 0, errors, imageWarns ++ tagWarns ++ nameV.warnings ++ roleV.warnings⟩

/-- The indexed walk `session.speakers.forEach((speaker, index) => ...)`,
returning the accumulated `(errors, warnings)`. -/
def validateSpeakersList (ctx : String) :
    List BilingualSpeaker → Nat → List ValidationError × List ValidationError
  | [], _ => ([], [])
  | sp :: rest, i =>
    let v := validateBilingualSpeaker sp (ctx ++ ".speakers[" ++ toString i ++ "]")
    let r := validateSpeakersList ctx rest (i + 1)
    (v.errors ++ r.1, v.warnings ++ r.2)

/-- The required-`timeSlot` check of `validateBilingualSession`. -/
def sessionTsErrs (session : BilingualSession) (context : String) : List ValidationError :=
  if jsTrim session.timeSlot == "" then
    [mkErrorCtx "session.timeSlot"
      "Session timeSlot is required and must be a non-empty string" context]
  else []

/-- `if (session.room)` — the optional room is validated only when truthy. -/
def sessionRoomV (session : BilingualSession) : ValidationResult :=
  if truthy session.room then validateBilingualText session.room "session.room" false
  else ⟨true, [], []⟩

/-- The speakers part of `validateBilingualSession`: a non-array is a
single error, an array is validated element-wise with indexed context. -/
def sessionSpeakersPart (session : BilingualSession) (context : String) :
    List ValidationError × List ValidationError :=
  match session.speakers with
  | none => ([mkErrorCtx "session.speakers" "Session speakers must be an array" context], [])
  | some l => validateSpeakersList context l 0

/-- `validateBilingualSession(session, context)`. -/
def validateBilingualSession (session : BilingualSession) (context : String) :
    ValidationResult :=
  let tsErrs := sessionTsErrs session context
  let dateV := validateBilingualText session.date "session.date" true
  let titleV := validateBilingualText session.title "session.title" true
  let contentV := validateBilingualText session.content "session.content" true
  let roomV := sessionRoomV session
  let speakersPart := sessionSpeakersPart session context
  let errors :=
    tsErrs ++ dateV.errors ++ titleV.errors ++ contentV.errors ++ roomV.errors ++ speakersPart.1
  ⟨errors.length == 0, errors,
    dateV.warnings ++ titleV.warnings ++ contentV.warnings ++ roomV.warnings ++ speakersPart.2⟩

/-- `validateBilingualCategory(category, context)`. -/
def validateBilingualCategory (category : BilingualCategory) (context : String) :
    ValidationResult :=
  let idErrs :=
    if jsTrim category.id == "" then
      [mkErrorCtx "category.id" "Category ID is required and must be a non-empty string" context]
    else []
  let nameV := validateBilingualText category.name "category.name" true
  let roomV := validateBilingualText category.room "category.room" true
  let errors := idErrs ++ nameV.errors ++ roomV.errors
  ⟨errors.length == 0, errors, nameV.warnings ++ roomV.warnings⟩

/-- `validateBilingualDay(day, context)`. -/
def validateBilingualDay (day : BilingualDay) (context : String) : ValidationResult :=
  let dateV := validateBilingualText day.date "day.date" true
  let titleV := validateBilingualText day.title "day.title" true
  let urlV := validateBilingualText day.url "day.url" true
  let errors := dateV.errors ++ titleV.errors ++ urlV.errors
  ⟨errors.length == 0, errors, dateV.warnings ++ titleV.warnings ++ urlV.warnings⟩

/-! ### `validateBilingualScheduleData` (bilingual.ts lines 630–734) -/

/-- Message `Duplicate category ID '<id>' found`. -/
def dupCatMsg (id : String) : String :=
  "Duplicate category ID \x27" ++ id ++ "\x27 found"

/-- Duplicate-category error pushed at `categories[<i>]`. -/
def mkDupCatError (id : String) (i : Nat) : ValidationError :=
  ⟨"category.id", dupCatMsg id, .error, some ("categories[" ++ toString i ++ "]")⟩

/-- `scheduleData.days.forEach((day, index) => ...)`. -/
def validateDaysList : List BilingualDay → Nat → List ValidationError × List ValidationError
  | [], _ => ([], [])
  | d :: rest, i =>
    let v := validateBilingualDay d ("days[" ++ toString i ++ "]")
    let r := validateDaysList rest (i + 1)
    (v.errors ++ r.1, v.warnings ++ r.2)

/-- `scheduleData.categories.forEach((category, index) => ...)`, threading
the `categoryIds` set (a duplicate-free list in insertion order). -/
def validateCatsList : List BilingualCategory → Nat → List String →
    List ValidationError × List ValidationError
  | [], _, _ => ([], [])
  | c :: rest, i, ids =>
    let v := validateBilingualCategory c ("categories[" ++ toString i ++ "]")
    if c.id != "" then
      if ids.contains c.id then
        let r := validateCatsList rest (i + 1) ids
        (v.errors ++ [mkDupCatError c.id i] ++ r.1, v.warnings ++ r.2)
      else
        let r := validateCatsList rest (i + 1) (ids ++ [c.id])
        (v.errors ++ r.1, v.warnings ++ r.2)
    else
      let r := validateCatsList rest (i + 1) ids
      (v.errors ++ r.1, v.warnings ++ r.2)

/-- The category-id set `new Set(scheduleData.categories?.map(cat => cat.id) || [])`
(membership is all that is used of it). -/
def catIdsOf (d : BilingualScheduleData) : List String :=
  (d.categories.getD []).map (·.id)

/-- `sessions.forEach((session, index) => ...)` for one category bucket. -/
def validateSessionList (cid : String) :
    List BilingualSession → Nat → List ValidationError × List ValidationError
  | [], _ => ([], [])
  | s :: rest, i =>
    let v := validateBilingualSession s ("sessions." ++ cid ++ "[" ++ toString i ++ "]")
    let r := validateSessionList cid rest (i + 1)
    (v.errors ++ r.1, v.warnings ++ r.2)

/-- `Session category '<id>' not found in categories array`. -/
def orphanMsg (cid : String) : String :=
  "Session category \x27" ++ cid ++ "\x27 not found in categories array"

/-- `Sessions for category '<id>' must be an array`. -/
def bucketMsg (cid : String) : String :=
  "Sessions for category \x27" ++ cid ++ "\x27 must be an array"

/-- The structural validator's orphaned-session warning (context names the
session key, unlike the business-rule copy of this check). -/
def mkOrphanWarning (cid : String) : ValidationError :=
  ⟨"sessions", orphanMsg cid, .warning, some ("sessions." ++ cid)⟩

/-- The non-array-bucket error. -/
def mkBucketError (cid : String) : ValidationError :=
  ⟨"sessions." ++ cid, bucketMsg cid, .error, none⟩

/-- Errors/warnings of one session bucket: a non-array bucket is a single
error, an array bucket is validated element-wise. -/
def validateBucket (cid : String) : Option (List BilingualSession) →
    List ValidationError × List ValidationError
  | none => ([mkBucketError cid], [])
  | some l => validateSessionList cid l 0

/-- `Object.keys(scheduleData.sessions).forEach(categoryId => ...)`. -/
def validateSessionsEntries (catIds : List String) :
    List (String × Option (List BilingualSession)) →
    List ValidationError × List ValidationError
  | [] => ([], [])
  | (cid, bucket) :: rest =>
    let orphanW := if catIds.contains cid then [] else [mkOrphanWarning cid]
    let part := validateBucket cid bucket
    let r := validateSessionsEntries catIds rest
    (part.1 ++ r.1, orphanW ++ part.2 ++ r.2)

/-- The days section of `validateBilingualScheduleData`. -/
def daysPart : Option (List BilingualDay) → List ValidationError × List ValidationError
  | none => ([mkError "scheduleData.days" "Days must be an array"], [])
  | some ds => validateDaysList ds 0

/-- The categories section of `validateBilingualScheduleData`. -/
def catsPart : Option (List BilingualCategory) → List ValidationError × List ValidationError
  | none => ([mkError "scheduleData.categories" "Categories must be an array"], [])
  | some cs => validateCatsList cs 0 []

/-- The sessions section of `validateBilingualScheduleData`. -/
def sessPart (catIds : List String) : Option (List (String × Option (List BilingualSession))) →
    List ValidationError × List ValidationError
  | none => ([mkError "scheduleData.sessions" "Sessions must be an object"], [])
  | some entries => validateSessionsEntries catIds entries

/-- The body of `validateBilingualScheduleData` once the argument is known
to be an object. -/
def validateScheduleDataCore (d : BilingualScheduleData) : ValidationResult :=
  let dp := daysPart d.days
  let cp := catsPart d.categories
  let sp := sessPart (catIdsOf d) d.sessions
  let errors := dp.1 ++ cp.1 ++ sp.1
  ⟨errors.length == 0, errors, dp.2 ++ cp.2 ++ sp.2⟩

/-- `validateBilingualScheduleData(scheduleData)`: `none` models a
`null`/`undefined`/non-object argument, rejected by the top-level guard. -/
def validateBilingualScheduleData : Option BilingualScheduleData → ValidationResult
  | none => ⟨false, [mkError "scheduleData" "Schedule data must be a valid object"], []⟩
  | some d => validateScheduleDataCore d

/-! ### `safeGetBilingualText` (bilingual.ts lines 744–797)

The optional `onError` callback is modelled by returning, next to the
result string, the list of `(message, context?)` reports made, in call
order.  The `try`/`catch` wrapper of the source cannot fire on these value
shapes (every operation in the body is total), so it has no residue here. -/

/-- A single report to the `onError` callback: `(error, context?)`. -/
abbrev ErrReport := String × Option String

/-- `safeGetBilingualText(textObj, currentLang, fallback, onError)`. -/
def safeGetBilingualText (textObj : TextVal) (currentLang : Lang) (fallback : String) :
    String × List ErrReport :=
  if !truthy textObj then
    (fallback, [("Text object is null or undefined", none)])
  else
    match textObj with
    | .str s =>
      -- `return textObj.trim() || fallback` (no report on this fallback)
      (if jsTrim s != "" then jsTrim s else fallback, [])
    | .obj en zh =>
      if en.isSome || zh.isSome then
        let zhText := (zh.map jsTrim).getD ""
        let enText := (en.map jsTrim).getD ""
        if currentLang == Lang.zh && zhText != "" then (zhText, [])
        else if currentLang == Lang.en && enText != "" then (enText, [])
        else if zhText != "" then
          (zhText,
            [("Missing " ++ langStr currentLang ++ " translation, using Chinese",
              some "language_fallback")])
        else if enText != "" then
          (enText,
            [("Missing " ++ langStr currentLang ++ " translation, using English",
              some "language_fallback")])
        else (fallback, [("No valid text found in bilingual object", none)])
      else (fallback, [("Invalid bilingual text object structure", none)])
    | .undef => (fallback, [("Text object is null or undefined", none)])

/-! ### `safeProcessBilingualSchedule` (bilingual.ts lines 806–898) -/

/-- Day normalization: replace `url` by
`{ en: safeGetBilingualText(day.url,'en',''), zh: safeGetBilingualText(day.url,'zh','') }`,
reporting in evaluation order.  The per-day `catch` is unreachable for these
value shapes. -/
def processDay (day : BilingualDay) : BilingualDay × List ErrReport :=
  let e := safeGetBilingualText day.url .en ""
  let z := safeGetBilingualText day.url .zh ""
  ({ day with url := .obj (some e.1) (some z.1) }, e.2 ++ z.2)

/-- Speaker-name coercion: keep an object, wrap anything else as
`{ en: String(v || ''), zh: String(v || '') }`.  (`TextVal.undef` is treated
as `undefined` here; a literal `null` name would survive the `typeof null
=== 'object'` test in JS, a corner only reachable for data that validation
already rejects.) -/
def coerceToPair : TextVal → TextVal
  | .obj en zh => .obj en zh
  | .str s => .obj (some s) (some s)
  | .undef => .obj (some "") (some "")

/-- Session normalization: `speakers: (session.speakers || []).map(...)`
with `name`/`roleOrg` coerced to pairs. -/
def processSession (s : BilingualSession) : BilingualSession :=
  { s with speakers := some ((s.speakers.getD []).map (fun sp =>
      { sp with name := coerceToPair sp.name, roleOrg := coerceToPair sp.roleOrg })) }

/-- The body of `safeProcessBilingualSchedule` for an object argument:
forward validation errors (when invalid) and warnings to the callback, then
rebuild days, categories and sessions.  The per-entity `catch` blocks are
unreachable for these value shapes. -/
def safeProcessCore (d : BilingualScheduleData) : BilingualScheduleData × List ErrReport :=
  let v := validateScheduleDataCore d
  let reported :=
    (if !v.isValid then v.errors.map (fun e => (e.message, e.context)) else []) ++
    v.warnings.map (fun w => (w.message, w.context))
  let dayRuns := (d.days.getD []).map processDay
  let sessions' := (d.sessions.getD []).map (fun p =>
    (p.1, some ((p.2.getD []).map processSession)))
  (⟨some (dayRuns.map (·.1)), some (d.categories.getD []), some sessions'⟩,
    reported ++ (dayRuns.map (·.2)).flatten)

/-- The report produced when the top-level `catch` fires on a non-object
document: `` `Critical error processing schedule data: ${error}` `` (the
embedded runtime `TypeError` text is reproduced for the `null` case). -/
def criticalReport : ErrReport :=
  ("Critical error processing schedule data: TypeError: Cannot read properties of null (reading \x27days\x27)",
    none)

/-- `safeProcessBilingualSchedule(scheduleData, currentLang, onError)`.
For a non-object document the initial validation reports its error, the
subsequent `scheduleData.days` access throws, the top-level `catch` reports
once, and the original input is returned unchanged.  The `currentLang`
parameter is accepted but (as in the source) never read by the body. -/
def safeProcessBilingualSchedule (input : Option BilingualScheduleData) (currentLang : Lang) :
    Option BilingualScheduleData × List ErrReport :=
  match input with
  | some d => ((safeProcessCore d).1, (safeProcessCore d).2)
  | none =>
    let v := validateBilingualScheduleData none
    (none, v.errors.map (fun e => (e.message, e.context)) ++ [criticalReport])

/-! ### `isValidTimeSlot` (schedule-validator.ts lines 248–271) -/

/-- Split a maximal run of decimal digits (`\d*` with the following token in
a disjoint character class, so regex backtracking never revisits it). -/
def splitDigits : List Char → Nat × List Char
  | [] => (0, [])
  | c :: cs =>
    if c.isDigit then
      let r := splitDigits cs
      (r.1 + 1, r.2)
    else (0, c :: cs)

/-- The anchored regex `^\d{1,2}:\d{2}\s*-\s*\d{1,2}:\d{2}$`.  Because every
adjacent pair of tokens draws from disjoint character classes, the
backtracking regex is equivalent to this single greedy pass. -/
def timeRangeTest (l : List Char) : Bool :=
  let a := splitDigits l
  if a.1 < 1 || 2 < a.1 then false
  else
    match a.2 with
    | ':' :: r2 =>
      let b := splitDigits r2
      if b.1 != 2 then false
      else
        match b.2.dropWhile jsIsWhitespace with
        | '-' :: r5 =>
          let c := splitDigits (r5.dropWhile jsIsWhitespace)
          if c.1 < 1 || 2 < c.1 then false
          else
            match c.2 with
            | ':' :: r8 =>
              let e := splitDigits r8
              e.1 == 2 && e.2.isEmpty
            | _ => false
        | _ => false
    | _ => false

/-- `isValidTimeSlot(timeSlot)`: placeholders (`tbd`, `all day`, `全天` as
case-insensitive substrings of the trimmed string) are accepted, otherwise
the trimmed string must match the time-range regex. -/
def isValidTimeSlot (timeSlot : String) : Bool :=
  if timeSlot == "" then false
  else
    let trimmed := jsTrim timeSlot
    if strIncludes (jsToLower trimmed) "tbd" ||
       strIncludes (jsToLower trimmed) "all day" ||
       strIncludes (jsToLower trimmed) "全天" then true
    else timeRangeTest trimmed.data

/-! ### `validateBusinessRules` (schedule-validator.ts lines 139–241)

The body runs inside one `try`/`catch`.  The only partial operations are
the element accesses on `scheduleData.sessions` (when it is not an object)
and the `forEach` over a `null` bucket; a thrown `TypeError` aborts the
remaining checks and is converted into a single error entry, keeping the
warnings already pushed. -/

/-- Insertion-order deduplication, i.e. `new Set(list)` read back in
iteration order. -/
def dedupKeepFirst : List String → List String → List String
  | [], acc => acc
  | x :: rest, acc =>
    if acc.contains x then dedupKeepFirst rest acc else dedupKeepFirst rest (acc ++ [x])

/-- Duplicate detection over the flattened speaker-id stream: the pair of
sets (`speakerIds`, `duplicateSpeakers`) threaded through the walk; returns
the `duplicateSpeakers` set in insertion order.  Falsy (empty) ids are
skipped by `if (speaker.id)`. -/
def dupScan : List String → List String → List String → List String
  | [], _, dups => dups
  | id :: rest, seen, dups =>
    if id == "" then dupScan rest seen dups
    else if seen.contains id then
      dupScan rest seen (if dups.contains id then dups else dups ++ [id])
    else dupScan rest (seen ++ [id]) dups

/-- All speaker ids of the document in traversal order
(`Object.values(sessions)`, then sessions, then `session.speakers?.forEach`). -/
def allSpeakerIds (buckets : List (Option (List BilingualSession))) : List String :=
  ((buckets.map (fun b => b.getD [])).flatten.map
    (fun s => (s.speakers.getD []).map (·.id))).flatten

/-- The warning pushed for one duplicated speaker id. -/
def mkDupSpeakerWarning (id : String) : ValidationError :=
  ⟨"speakers",
    "Speaker ID \x27" ++ id ++ "\x27 appears multiple times (this may be intentional for speakers with multiple sessions)",
    .warning, some "business_rules"⟩

/-- The warning pushed for one unusual time slot. -/
def mkTimeSlotWarning (t : String) (i : Nat) : ValidationError :=
  ⟨"session.timeSlot", "Session has unusual time slot format: \x27" ++ t ++ "\x27",
    .warning, some ("business_rules.session[" ++ toString i ++ "]")⟩

/-- `sessions.forEach((session, index) => ...)` — time-slot warnings of one
bucket (`index` restarts per bucket). -/
def timeSlotWarnList : List BilingualSession → Nat → List ValidationError
  | [], _ => []
  | s :: rest, i =>
    (if s.timeSlot != "" && !isValidTimeSlot s.timeSlot then [mkTimeSlotWarning s.timeSlot i]
     else []) ++ timeSlotWarnList rest (i + 1)

/-- The warning pushed for a missing or placeholder speaker image. -/
def mkImageWarning (id : String) (i : Nat) : ValidationError :=
  ⟨"speaker.image", "Speaker \x27" ++ id ++ "\x27 is using placeholder image",
    .warning, some ("business_rules.speaker[" ++ toString i ++ "]")⟩

/-- `session.speakers?.forEach((speaker, speakerIndex) => ...)` — image
warnings of one session. -/
def imageWarnList : List BilingualSpeaker → Nat → List ValidationError
  | [], _ => []
  | sp :: rest, i =>
    (if sp.image == "" || sp.image == "0-placeholder-person.png" then [mkImageWarning sp.id i]
     else []) ++ imageWarnList rest (i + 1)

/-- The single error entry produced by the defensive `catch` (the embedded
JS runtime message is abstracted to its class name). -/
def brCatchError : ValidationError :=
  ⟨"business_rules", "Business rules validation failed: TypeError", .error, some "business_rules"⟩

/-- Orphaned-session warning of the business-rule pass (context
`business_rules`, unlike the structural validator's copy of this rule). -/
def mkOrphanBRWarning (cid : String) : ValidationError :=
  ⟨"sessions", orphanMsg cid, .warning, some "business_rules"⟩

/-- `Category '<id>' has no sessions`. -/
def mkNoSessionsWarning (cid : String) : ValidationError :=
  ⟨"categories", "Category \x27" ++ cid ++ "\x27 has no sessions",
    .warning, some "business_rules"⟩

/-- Does `sessions[cid]` count as "has no sessions"?  A missing key or a
`null` bucket is falsy; a non-empty array bucket passes; an empty array has
`length === 0`. -/
def bucketLacksSessions (entries : List (String × Option (List BilingualSession)))
    (cid : String) : Bool :=
  match entries.lookup cid with
  | none => true
  | some none => true
  | some (some l) => l.length == 0

/-- Orphaned-session warnings of the business-rule pass: one per key of
`scheduleData.sessions || {}` missing from the category-id set. -/
def brOrphanWarns (catIds : List String)
    (entries : List (String × Option (List BilingualSession))) : List ValidationError :=
  (entries.map (·.1)).filterMap (fun k =>
    if catIds.contains k then none else some (mkOrphanBRWarning k))

/-- `Category '<id>' has no sessions` warnings, one per category id whose
bucket is missing, `null`, or an empty array. -/
def brNoSessWarns (catIds : List String)
    (entries : List (String × Option (List BilingualSession))) : List ValidationError :=
  catIds.filterMap (fun cid =>
    if bucketLacksSessions entries cid then some (mkNoSessionsWarning cid) else none)

/-- Duplicate-speaker warnings: one per entry of the `duplicateSpeakers`
set, in insertion order. -/
def brDupSpeakerWarns (buckets : List (Option (List BilingualSession))) :
    List ValidationError :=
  (dupScan (allSpeakerIds buckets) [] []).map mkDupSpeakerWarning

/-- Unusual time-slot warnings, per bucket with a per-bucket index. -/
def brTimeWarns (buckets : List (Option (List BilingualSession))) : List ValidationError :=
  (buckets.map (fun b => timeSlotWarnList (b.getD []) 0)).flatten

/-- Placeholder-image warnings, per session with a per-session index. -/
def brImageWarns (buckets : List (Option (List BilingualSession))) : List ValidationError :=
  ((buckets.map (fun b => b.getD [])).flatten.map
    (fun s => imageWarnList (s.speakers.getD []) 0)).flatten

/-- `validateBusinessRules(scheduleData)` for an object argument. -/
def validateBusinessRulesCore (d : BilingualScheduleData) : ValidationResult :=
  let catIds := dedupKeepFirst (catIdsOf d) []
  match d.sessions with
  | none =>
    -- `Object.keys(undefined || {})` is empty, so no orphan warnings; with
    -- no categories every remaining walk is over an empty collection, and
    -- otherwise `scheduleData.sessions[categoryId]` throws on the first id
    if catIds.isEmpty then ⟨true, [], []⟩
    else ⟨false, [brCatchError], []⟩
  | some entries =>
    let buckets := entries.map (·.2)
    if buckets.all Option.isSome then
      ⟨true, [],
        brOrphanWarns catIds entries ++ brNoSessWarns catIds entries ++
        brDupSpeakerWarns buckets ++ brTimeWarns buckets ++ brImageWarns buckets⟩
    else
      -- a `null` bucket has no `forEach`: the speaker walk throws before
      -- any duplicate warning is pushed, and the later checks never run
      ⟨false, [brCatchError], brOrphanWarns catIds entries ++ brNoSessWarns catIds entries⟩

/-- `validateBusinessRules(scheduleData)`: a `null` argument makes the very
first property access throw, caught by the defensive `catch`. -/
def validateBusinessRules : Option BilingualScheduleData → ValidationResult
  | none => ⟨false, [brCatchError], []⟩
  | some d => validateBusinessRulesCore d

/-! ### The CLI-level structural check (`scripts/validate-schedule.js`,
`validateSchedule`) — the layer that, unlike the library's
`validateBilingualScheduleData`, rejects empty `days`/`categories` arrays.
Only the accept/reject outcome is modelled (`true` = reaches the success
print, `false` = `process.exit(1)`). -/

def cliValidateSchedule (input : Option BilingualScheduleData) : Bool :=
  match input with
  | none => false
  | some d =>
    -- `requiredFields.filter(field => !scheduleData[field])`: an empty array
    -- and an empty object are truthy, only an absent/non-collection field
    -- (modelled by `none`) is missing here
    if d.days.isNone || d.categories.isNone || d.sessions.isNone then false
    else if (d.days.getD []).length == 0 then false
    else if (d.categories.getD []).length == 0 then false
    else true

/-! ### `sortSessionsByTime` (bilingual.ts lines 297–304)

`return [...sessions].sort((a, b) => ...)` — the spread allocates a fresh
array and `Array.prototype.sort` sorts that fresh array in place.  To state
the frame property (the argument array is not mutated) the relevant JS heap
fragment is made explicit: a store of session arrays addressed by reference.
The comparator key is `timeSlot.split(' - ')[0]`; `localeCompare` is an
ICU-dependent total preorder, abstracted as an arbitrary comparator
parameter.  `Array.prototype.sort` is stable (ES2019); it is modelled by
insertion sort on the comparator. -/

/-- The heap fragment: arrays of sessions, addressed by allocation index. -/
abbrev SessHeap := List (List BilingualSession)

/-- Dereference (reading an unallocated reference yields the empty array;
the theorems only use valid references). -/
def heapGet (h : SessHeap) (r : Nat) : List BilingualSession :=
  h.getD r []

/-- Allocate a fresh array holding `l`; returns the new heap and reference. -/
def heapAlloc (h : SessHeap) (l : List BilingualSession) : SessHeap × Nat :=
  (h ++ [l], h.length)

/-- Overwrite the array at `r` (in-place mutation). -/
def heapSet (h : SessHeap) (r : Nat) (l : List BilingualSession) : SessHeap :=
  h.set r l

/-- `a.timeSlot.split(' - ')[0]`. -/
def timeKey (s : BilingualSession) : String :=
  (s.timeSlot.splitOn " - ").headD ""

/-- `sortSessionsByTime(sessions)` acting on the explicit heap: spread-copy,
then sort the copy in place, returning the copy's reference.  `lc` stands
for `localeCompare`; the sort ascends where `lc` is non-positive. -/
def sortSessionsByTime (lc : String → String → Int) (h : SessHeap) (r : Nat) :
    SessHeap × Nat :=
  let alloc := heapAlloc h (heapGet h r)
  let sorted := (heapGet alloc.1 alloc.2).insertionSort
    (fun a b => lc (timeKey a) (timeKey b) ≤ 0)
  (heapSet alloc.1 alloc.2 sorted, alloc.2)

/-! ## Theorems -/

/-- **C2.** `getBilingualText` satisfies the specified contract: plain
strings are returned unchanged (even when empty), `null`/`undefined` yields
the fallback, and for an `{en, zh}` object the requested language wins when
both are non-empty, the sole non-empty side wins regardless of the request,
and the fallback is used when both are empty.  Stated as extensional
equality with `getBilingualTextSpec`, the definition transcribed from the
specification's wording. -/
theorem claim_C2 (t : TextVal) (lang : Lang) (fb : String) :
    getBilingualText t lang fb = getBilingualTextSpec t lang fb := by
  cases t with
  | str s => rfl
  | undef => rfl
  | obj en zh =>
    cases en with
    | none =>
      cases zh with
      | none => rfl
      | some z =>
        by_cases hz : z = "" <;>
          simp [getBilingualText, getBilingualTextSpec, hz]
    | some e =>
      cases zh with
      | none =>
        by_cases he : e = "" <;>
          simp [getBilingualText, getBilingualTextSpec, he]
      | some z =>
        by_cases he : e = "" <;> by_cases hz : z = "" <;>
          simp [getBilingualText, getBilingualTextSpec, he, hz]

/-- The empty-but-well-typed document `{days: [], categories: [], sessions: {}}`. -/
def emptyDoc : BilingualScheduleData := ⟨some [], some [], some []⟩

/-- **C7.** On `{days: [], categories: [], sessions: {}}` the library-level
validator reports no error and `isValid` is `true` (the collection-type
check does not require non-emptiness), while the CLI-level check of
`validate-schedule.js` rejects the same document. -/
theorem claim_C7 :
    (validateBilingualScheduleData (some emptyDoc)).errors = [] ∧
    (validateBilingualScheduleData (some emptyDoc)).isValid = true ∧
    cliValidateSchedule (some emptyDoc) = false := by
  exact ⟨rfl, rfl, rfl⟩

/-- **C10.** `sortSessionsByTime` does not mutate its argument array: for
any valid reference, the array at that reference is unchanged after the
call, the returned reference is a fresh one, and the fresh array holds a
permutation of the input elements (sorted by the comparator). -/
theorem claim_C10 (lc : String → String → Int) (h : SessHeap) (r : Nat)
    (hr : r < h.length) :
    heapGet (sortSessionsByTime lc h r).1 r = heapGet h r ∧
    (sortSessionsByTime lc h r).2 ≠ r ∧
    (heapGet (sortSessionsByTime lc h r).1 (sortSessionsByTime lc h r).2).Perm
      (heapGet h r) := by
  have hne : h.length ≠ r := Nat.ne_of_gt hr
  have hback : heapGet (h ++ [heapGet h r]) h.length = heapGet h r := by
    simp [heapGet, List.getElem?_append_right (Nat.le_refl h.length)]
  simp only [sortSessionsByTime, heapAlloc, heapSet]
  refine ⟨?_, hne, ?_⟩
  · simp only [heapGet, List.getD_eq_getElem?_getD, List.getElem?_set_ne hne,
      List.getElem?_append_left hr]
  · have hlen : h.length < (h ++ [heapGet h r]).length := by simp
    rw [heapGet, List.getD_eq_getElem?_getD, List.getElem?_set_self hlen]
    rw [hback]
    exact List.perm_insertionSort _ _

/-- Witness for C10 at a concrete heap: one allocated array of two
sessions, sorted with a constant comparator. -/
def witSession (t : String) : BilingualSession :=
  ⟨.obj (some "d") (some "d"), t, .obj (some "t") (some "t"),
    .obj (some "c") (some "c"), some [], none, none, .undef⟩

/-- Closed instance of C10: the hypothesis `0 < length` holds at the
one-array heap and the conclusion follows by applying `claim_C10` there. -/
theorem claim_C10_witness :
    0 < ([[witSession "12:00 - 13:00", witSession "09:00 - 10:00"]] : SessHeap).length ∧
    (heapGet (sortSessionsByTime (fun _ _ => 0)
        [[witSession "12:00 - 13:00", witSession "09:00 - 10:00"]] 0).1 0 =
      heapGet [[witSession "12:00 - 13:00", witSession "09:00 - 10:00"]] 0 ∧
    (sortSessionsByTime (fun _ _ => 0)
        [[witSession "12:00 - 13:00", witSession "09:00 - 10:00"]] 0).2 ≠ 0 ∧
    (heapGet (sortSessionsByTime (fun _ _ => 0)
        [[witSession "12:00 - 13:00", witSession "09:00 - 10:00"]] 0).1
      (sortSessionsByTime (fun _ _ => 0)
        [[witSession "12:00 - 13:00", witSession "09:00 - 10:00"]] 0).2).Perm
      (heapGet [[witSession "12:00 - 13:00", witSession "09:00 - 10:00"]] 0)) :=
  ⟨by decide, claim_C10 (fun _ _ => 0) _ 0 (by decide)⟩

/-! ### C1: `isValid` ⟺ no errors -/

/-- Branch analysis of `validateBilingualText`: every return site pairs
`isValid: false` with a singleton error list and `isValid: true` with an
empty one. -/
lemma vbtext_isValid_iff (t : TextVal) (f : String) (r : Bool) :
    (validateBilingualText t f r).isValid = true ↔
      (validateBilingualText t f r).errors = [] := by
  unfold validateBilingualText
  split
  · simp
  · split
    · simp
    · cases t with
      | str s =>
        simp only
        split <;> simp
      | obj en zh =>
        simp only
        split <;> simp
      | undef => simp

/-- Validators that literally return `isValid: errors.length === 0`. -/
lemma isValid_iff_of_len {r : ValidationResult}
    (h : r.isValid = (r.errors.length == 0)) :
    r.isValid = true ↔ r.errors = [] := by
  rw [h]
  simp

/-- **C1.** For each of the six validation functions, the returned
`isValid` is `true` exactly when the returned `errors` list is empty (so
warnings never influence validity). -/
theorem claim_C1 :
    (∀ t f r, (validateBilingualText t f r).isValid = true ↔
      (validateBilingualText t f r).errors = []) ∧
    (∀ sp c, (validateBilingualSpeaker sp c).isValid = true ↔
      (validateBilingualSpeaker sp c).errors = []) ∧
    (∀ s c, (validateBilingualSession s c).isValid = true ↔
      (validateBilingualSession s c).errors = []) ∧
    (∀ cat c, (validateBilingualCategory cat c).isValid = true ↔
      (validateBilingualCategory cat c).errors = []) ∧
    (∀ day c, (validateBilingualDay day c).isValid = true ↔
      (validateBilingualDay day c).errors = []) ∧
    (∀ d, (validateBilingualScheduleData d).isValid = true ↔
      (validateBilingualScheduleData d).errors = []) := by
  refine ⟨vbtext_isValid_iff, ?_, ?_, ?_, ?_, ?_⟩
  · intro sp c
    exact isValid_iff_of_len rfl
  · intro s c
    exact isValid_iff_of_len rfl
  · intro cat c
    exact isValid_iff_of_len rfl
  · intro day c
    exact isValid_iff_of_len rfl
  · intro d
    cases d with
    | none => simp [validateBilingualScheduleData]
    | some d => exact isValid_iff_of_len rfl

/-! ### C9: severity segregation -/

/-- Every entry of `errors` is tagged `error`; every entry of `warnings` is
tagged `warning`. -/
def SevOk (r : ValidationResult) : Prop :=
  (∀ e ∈ r.errors, e.severity = Severity.error) ∧
  (∀ w ∈ r.warnings, w.severity = Severity.warning)

lemma sevOk_vbtext (t : TextVal) (f : String) (r : Bool) :
    SevOk (validateBilingualText t f r) := by
  unfold validateBilingualText SevOk
  split
  · simp [mkError]
  · split
    · simp
    · cases t with
      | str s =>
        simp only
        split <;> simp [mkError, mkWarning]
      | obj en zh =>
        simp only
        split
        · simp [mkError]
        · constructor
          · simp
          · intro w hw
            rcases List.mem_append.1 hw with h | h <;>
              [skip; skip] <;>
              · rcases h with h
                split at h <;> simp_all [mkWarning]
      | undef => simp

lemma sevOk_speaker (sp : BilingualSpeaker) (c : String) :
    SevOk (validateBilingualSpeaker sp c) := by
  have hn := sevOk_vbtext sp.name "speaker.name" true
  have hr := sevOk_vbtext sp.roleOrg "speaker.roleOrg" true
  unfold validateBilingualSpeaker
  constructor
  · intro e he
    simp only [List.mem_append] at he
    rcases he with (he | he) | he
    · split at he <;> simp_all [mkErrorCtx]
    · exact hn.1 e he
    · exact hr.1 e he
  · intro w hw
    simp only [List.mem_append] at hw
    rcases hw with ((hw | hw) | hw) | hw
    · split at hw <;> simp_all [mkWarningCtx]
    · split at hw <;> simp_all [mkWarningCtx]
    · exact hn.2 w hw
    · exact hr.2 w hw

lemma sevOk_speakersList (ctx : String) (l : List BilingualSpeaker) (i : Nat) :
    (∀ e ∈ (validateSpeakersList ctx l i).1, e.severity = Severity.error) ∧
    (∀ w ∈ (validateSpeakersList ctx l i).2, w.severity = Severity.warning) := by
  induction l generalizing i with
  | nil => simp [validateSpeakersList]
  | cons sp rest ih =>
    have hs := sevOk_speaker sp (ctx ++ ".speakers[" ++ toString i ++ "]")
    constructor
    · intro e he
      rcases List.mem_append.1 he with h | h
      · exact hs.1 e h
      · exact (ih (i + 1)).1 e h
    · intro w hw
      rcases List.mem_append.1 hw with h | h
      · exact hs.2 w h
      · exact (ih (i + 1)).2 w h

/-- The errors of `validateBilingualSession`, spelled out (note `++` is
left-associated, matching the push order of the source). -/
lemma session_errors_eq (s : BilingualSession) (c : String) :
    (validateBilingualSession s c).errors =
      sessionTsErrs s c ++
      (validateBilingualText s.date "session.date" true).errors ++
      (validateBilingualText s.title "session.title" true).errors ++
      (validateBilingualText s.content "session.content" true).errors ++
      (sessionRoomV s).errors ++ (sessionSpeakersPart s c).1 := rfl

/-- The warnings of `validateBilingualSession`, spelled out. -/
lemma session_warnings_eq (s : BilingualSession) (c : String) :
    (validateBilingualSession s c).warnings =
      (validateBilingualText s.date "session.date" true).warnings ++
      (validateBilingualText s.title "session.title" true).warnings ++
      (validateBilingualText s.content "session.content" true).warnings ++
      (sessionRoomV s).warnings ++ (sessionSpeakersPart s c).2 := rfl

lemma sevOk_session (s : BilingualSession) (c : String) :
    SevOk (validateBilingualSession s c) := by
  have hd := sevOk_vbtext s.date "session.date" true
  have ht := sevOk_vbtext s.title "session.title" true
  have hc := sevOk_vbtext s.content "session.content" true
  have hroom : SevOk (sessionRoomV s) := by
    unfold sessionRoomV
    split
    · exact sevOk_vbtext s.room "session.room" false
    · exact ⟨by simp, by simp⟩
  have hspE : ∀ e ∈ (sessionSpeakersPart s c).1, e.severity = Severity.error := by
    unfold sessionSpeakersPart
    cases s.speakers with
    | none => intro e he; simp only [List.mem_singleton] at he; simp [he, mkErrorCtx]
    | some l => exact (sevOk_speakersList c l 0).1
  have hspW : ∀ w ∈ (sessionSpeakersPart s c).2, w.severity = Severity.warning := by
    unfold sessionSpeakersPart
    cases s.speakers with
    | none => intro w hw; simp at hw
    | some l => exact (sevOk_speakersList c l 0).2
  constructor
  · intro e he
    rw [session_errors_eq] at he
    simp only [List.mem_append, or_assoc] at he
    rcases he with h | h | h | h | h | h
    · unfold sessionTsErrs at h
      split at h <;> simp_all [mkErrorCtx]
    · exact hd.1 e h
    · exact ht.1 e h
    · exact hc.1 e h
    · exact hroom.1 e h
    · exact hspE e h
  · intro w hw
    rw [session_warnings_eq] at hw
    simp only [List.mem_append, or_assoc] at hw
    rcases hw with h | h | h | h | h
    · exact hd.2 w h
    · exact ht.2 w h
    · exact hc.2 w h
    · exact hroom.2 w h
    · exact hspW w h

lemma sevOk_category (cat : BilingualCategory) (c : String) :
    SevOk (validateBilingualCategory cat c) := by
  have hn := sevOk_vbtext cat.name "category.name" true
  have hr := sevOk_vbtext cat.room "category.room" true
  unfold validateBilingualCategory
  constructor
  · intro e he
    simp only [List.mem_append] at he
    rcases he with (he | he) | he
    · split at he <;> simp_all [mkErrorCtx]
    · exact hn.1 e he
    · exact hr.1 e he
  · intro w hw
    rcases List.mem_append.1 hw with h | h
    · exact hn.2 w h
    · exact hr.2 w h

lemma sevOk_day (day : BilingualDay) (c : String) :
    SevOk (validateBilingualDay day c) := by
  have hd := sevOk_vbtext day.date "day.date" true
  have ht := sevOk_vbtext day.title "day.title" true
  have hu := sevOk_vbtext day.url "day.url" true
  unfold validateBilingualDay
  constructor
  · intro e he
    simp only [List.mem_append] at he
    rcases he with (he | he) | he
    · exact hd.1 e he
    · exact ht.1 e he
    · exact hu.1 e he
  · intro w hw
    simp only [List.mem_append] at hw
    rcases hw with (hw | hw) | hw
    · exact hd.2 w hw
    · exact ht.2 w hw
    · exact hu.2 w hw

lemma sevOk_daysList (ds : List BilingualDay) (i : Nat) :
    (∀ e ∈ (validateDaysList ds i).1, e.severity = Severity.error) ∧
    (∀ w ∈ (validateDaysList ds i).2, w.severity = Severity.warning) := by
  induction ds generalizing i with
  | nil => simp [validateDaysList]
  | cons d rest ih =>
    have hd := sevOk_day d ("days[" ++ toString i ++ "]")
    exact ⟨fun e he => (List.mem_append.1 he).elim (hd.1 e) ((ih (i + 1)).1 e),
      fun w hw => (List.mem_append.1 hw).elim (hd.2 w) ((ih (i + 1)).2 w)⟩

lemma sevOk_catsList (cs : List BilingualCategory) (i : Nat) (ids : List String) :
    (∀ e ∈ (validateCatsList cs i ids).1, e.severity = Severity.error) ∧
    (∀ w ∈ (validateCatsList cs i ids).2, w.severity = Severity.warning) := by
  induction cs generalizing i ids with
  | nil => simp [validateCatsList]
  | cons c rest ih =>
    have hc := sevOk_category c ("categories[" ++ toString i ++ "]")
    unfold validateCatsList
    split
    · split
      · refine ⟨fun e he => ?_, fun w hw => ?_⟩
        · rcases List.mem_append.1 he with h | h
          · rcases List.mem_append.1 h with h' | h'
            · exact hc.1 e h'
            · simp only [List.mem_singleton] at h'
              simp [h', mkDupCatError]
          · exact (ih (i + 1) ids).1 e h
        · rcases List.mem_append.1 hw with h | h
          · exact hc.2 w h
          · exact (ih (i + 1) ids).2 w h
      · refine ⟨fun e he => ?_, fun w hw => ?_⟩
        · rcases List.mem_append.1 he with h | h
          · exact hc.1 e h
          · exact (ih (i + 1) (ids ++ [c.id])).1 e h
        · rcases List.mem_append.1 hw with h | h
          · exact hc.2 w h
          · exact (ih (i + 1) (ids ++ [c.id])).2 w h
    · refine ⟨fun e he => ?_, fun w hw => ?_⟩
      · rcases List.mem_append.1 he with h | h
        · exact hc.1 e h
        · exact (ih (i + 1) ids).1 e h
      · rcases List.mem_append.1 hw with h | h
        · exact hc.2 w h
        · exact (ih (i + 1) ids).2 w h

lemma sevOk_sessionList (cid : String) (l : List BilingualSession) (i : Nat) :
    (∀ e ∈ (validateSessionList cid l i).1, e.severity = Severity.error) ∧
    (∀ w ∈ (validateSessionList cid l i).2, w.severity = Severity.warning) := by
  induction l generalizing i with
  | nil => simp [validateSessionList]
  | cons s rest ih =>
    have hs := sevOk_session s ("sessions." ++ cid ++ "[" ++ toString i ++ "]")
    exact ⟨fun e he => (List.mem_append.1 he).elim (hs.1 e) ((ih (i + 1)).1 e),
      fun w hw => (List.mem_append.1 hw).elim (hs.2 w) ((ih (i + 1)).2 w)⟩

lemma sevOk_sessionsEntries (catIds : List String)
    (entries : List (String × Option (List BilingualSession))) :
    (∀ e ∈ (validateSessionsEntries catIds entries).1, e.severity = Severity.error) ∧
    (∀ w ∈ (validateSessionsEntries catIds entries).2, w.severity = Severity.warning) := by
  induction entries with
  | nil => simp [validateSessionsEntries]
  | cons p rest ih =>
    obtain ⟨cid, bucket⟩ := p
    have hbErr : ∀ e ∈ (validateBucket cid bucket).1, e.severity = Severity.error := by
      cases bucket with
      | none =>
        intro e he
        simp only [validateBucket, List.mem_singleton] at he
        simp [he, mkBucketError]
      | some l => exact (sevOk_sessionList cid l 0).1
    have hbWarn : ∀ w ∈ (validateBucket cid bucket).2, w.severity = Severity.warning := by
      cases bucket with
      | none => intro w hw; simp [validateBucket] at hw
      | some l => exact (sevOk_sessionList cid l 0).2
    refine ⟨fun e he => ?_, fun w hw => ?_⟩
    · simp only [validateSessionsEntries, List.mem_append] at he
      rcases he with h | h
      · exact hbErr e h
      · exact ih.1 e h
    · have hw' : w ∈ (if catIds.contains cid then [] else [mkOrphanWarning cid]) ∨
          w ∈ (validateBucket cid bucket).2 ∨
          w ∈ (validateSessionsEntries catIds rest).2 := by
        simpa [validateSessionsEntries, List.mem_append, or_assoc] using hw
      rcases hw' with h | h | h
      · split at h
        · simp at h
        · simp only [List.mem_singleton] at h
          simp [h, mkOrphanWarning]
      · exact hbWarn w h
      · exact ih.2 w h

lemma sevOk_daysPart (dv : Option (List BilingualDay)) :
    (∀ e ∈ (daysPart dv).1, e.severity = Severity.error) ∧
    (∀ w ∈ (daysPart dv).2, w.severity = Severity.warning) := by
  cases dv with
  | none =>
    refine ⟨fun e he => ?_, fun w hw => ?_⟩
    · simp only [daysPart, List.mem_singleton] at he; simp [he, mkError]
    · simp [daysPart] at hw
  | some ds => exact sevOk_daysList ds 0

lemma sevOk_catsPart (cv : Option (List BilingualCategory)) :
    (∀ e ∈ (catsPart cv).1, e.severity = Severity.error) ∧
    (∀ w ∈ (catsPart cv).2, w.severity = Severity.warning) := by
  cases cv with
  | none =>
    refine ⟨fun e he => ?_, fun w hw => ?_⟩
    · simp only [catsPart, List.mem_singleton] at he; simp [he, mkError]
    · simp [catsPart] at hw
  | some cs => exact sevOk_catsList cs 0 []

lemma sevOk_sessPart (catIds : List String)
    (sv : Option (List (String × Option (List BilingualSession)))) :
    (∀ e ∈ (sessPart catIds sv).1, e.severity = Severity.error) ∧
    (∀ w ∈ (sessPart catIds sv).2, w.severity = Severity.warning) := by
  cases sv with
  | none =>
    refine ⟨fun e he => ?_, fun w hw => ?_⟩
    · simp only [sessPart, List.mem_singleton] at he; simp [he, mkError]
    · simp [sessPart] at hw
  | some entries => exact sevOk_sessionsEntries catIds entries

/-- The errors of the document validator, spelled out. -/
lemma scheduleCore_errors_eq (d : BilingualScheduleData) :
    (validateScheduleDataCore d).errors =
      (daysPart d.days).1 ++ (catsPart d.categories).1 ++
      (sessPart (catIdsOf d) d.sessions).1 := rfl

/-- The warnings of the document validator, spelled out. -/
lemma scheduleCore_warnings_eq (d : BilingualScheduleData) :
    (validateScheduleDataCore d).warnings =
      (daysPart d.days).2 ++ (catsPart d.categories).2 ++
      (sessPart (catIdsOf d) d.sessions).2 := rfl

lemma sevOk_scheduleData (d : Option BilingualScheduleData) :
    SevOk (validateBilingualScheduleData d) := by
  cases d with
  | none => exact ⟨by simp [validateBilingualScheduleData, mkError], by
      simp [validateBilingualScheduleData]⟩
  | some d =>
    refine ⟨fun e he => ?_, fun w hw => ?_⟩
    · rw [show validateBilingualScheduleData (some d) = validateScheduleDataCore d from rfl,
        scheduleCore_errors_eq] at he
      simp only [List.mem_append, or_assoc] at he
      rcases he with h | h | h
      · exact (sevOk_daysPart d.days).1 e h
      · exact (sevOk_catsPart d.categories).1 e h
      · exact (sevOk_sessPart (catIdsOf d) d.sessions).1 e h
    · rw [show validateBilingualScheduleData (some d) = validateScheduleDataCore d from rfl,
        scheduleCore_warnings_eq] at hw
      simp only [List.mem_append, or_assoc] at hw
      rcases hw with h | h | h
      · exact (sevOk_daysPart d.days).2 w h
      · exact (sevOk_catsPart d.categories).2 w h
      · exact (sevOk_sessPart (catIdsOf d) d.sessions).2 w h

lemma sevOk_timeSlotWarnList (l : List BilingualSession) (i : Nat) :
    ∀ w ∈ timeSlotWarnList l i, w.severity = Severity.warning := by
  induction l generalizing i with
  | nil => simp [timeSlotWarnList]
  | cons s rest ih =>
    intro w hw
    simp only [timeSlotWarnList, List.mem_append] at hw
    rcases hw with h | h
    · split at h <;> simp_all [mkTimeSlotWarning]
    · exact ih (i + 1) w h

lemma sevOk_imageWarnList (l : List BilingualSpeaker) (i : Nat) :
    ∀ w ∈ imageWarnList l i, w.severity = Severity.warning := by
  induction l generalizing i with
  | nil => simp [imageWarnList]
  | cons sp rest ih =>
    intro w hw
    simp only [imageWarnList, List.mem_append] at hw
    rcases hw with h | h
    · split at h <;> simp_all [mkImageWarning]
    · exact ih (i + 1) w h

lemma sevOk_brOrphanWarns (catIds : List String) (entries) :
    ∀ w ∈ brOrphanWarns catIds entries, w.severity = Severity.warning := by
  intro w hw
  rcases List.mem_filterMap.1 hw with ⟨k, _, hk⟩
  split at hk
  · simp at hk
  · simp only [Option.some_inj] at hk
    simp [← hk, mkOrphanBRWarning]

lemma sevOk_brNoSessWarns (catIds : List String) (entries) :
    ∀ w ∈ brNoSessWarns catIds entries, w.severity = Severity.warning := by
  intro w hw
  rcases List.mem_filterMap.1 hw with ⟨k, _, hk⟩
  split at hk
  · simp only [Option.some_inj] at hk
    simp [← hk, mkNoSessionsWarning]
  · simp at hk

lemma sevOk_businessRules (d : Option BilingualScheduleData) :
    SevOk (validateBusinessRules d) := by
  cases d with
  | none => exact ⟨by simp [validateBusinessRules, brCatchError], by
      simp [validateBusinessRules]⟩
  | some d =>
    have hred : validateBusinessRules (some d) = validateBusinessRulesCore d := rfl
    rw [hred]
    cases hss : d.sessions with
    | none =>
      have hform : validateBusinessRulesCore d =
          if (dedupKeepFirst (catIdsOf d) []).isEmpty then
            (⟨true, [], []⟩ : ValidationResult)
          else ⟨false, [brCatchError], []⟩ := by
        unfold validateBusinessRulesCore
        rw [hss]
      rw [hform]
      refine ⟨fun e he => ?_, fun w hw => ?_⟩
      · split at he <;> simp_all [brCatchError]
      · split at hw <;> simp_all
    | some entries =>
      have hform : validateBusinessRulesCore d =
          if ((entries.map (·.2)).all Option.isSome) then
            (⟨true, [],
              brOrphanWarns (dedupKeepFirst (catIdsOf d) []) entries ++
              brNoSessWarns (dedupKeepFirst (catIdsOf d) []) entries ++
              brDupSpeakerWarns (entries.map (·.2)) ++ brTimeWarns (entries.map (·.2)) ++
              brImageWarns (entries.map (·.2))⟩ : ValidationResult)
          else ⟨false, [brCatchError],
            brOrphanWarns (dedupKeepFirst (catIdsOf d) []) entries ++
            brNoSessWarns (dedupKeepFirst (catIdsOf d) []) entries⟩ := by
        unfold validateBusinessRulesCore
        rw [hss]
      rw [hform]
      split
      · refine ⟨by simp, fun w hw => ?_⟩
        simp only [List.mem_append, or_assoc] at hw
        rcases hw with h | h | h | h | h
        · exact sevOk_brOrphanWarns _ _ w h
        · exact sevOk_brNoSessWarns _ _ w h
        · rcases List.mem_map.1 h with ⟨id, _, hid⟩
          simp [← hid, mkDupSpeakerWarning]
        · rcases List.mem_flatten.1 h with ⟨l, hl, hwl⟩
          rcases List.mem_map.1 hl with ⟨b, _, hb⟩
          exact sevOk_timeSlotWarnList (b.getD []) 0 w (hb ▸ hwl)
        · rcases List.mem_flatten.1 h with ⟨l, hl, hwl⟩
          rcases List.mem_map.1 hl with ⟨s, _, hsl⟩
          exact sevOk_imageWarnList (s.speakers.getD []) 0 w (hsl ▸ hwl)
      · refine ⟨by simp [brCatchError], fun w hw => ?_⟩
        simp only [List.mem_append] at hw
        rcases hw with h | h
        · exact sevOk_brOrphanWarns _ _ w h
        · exact sevOk_brNoSessWarns _ _ w h

/-- **C9.** Severity segregation: every validator (the six structural ones
and the business-rule validator) only ever places severity-`error` entries
in `errors` and severity-`warning` entries in `warnings`. -/
theorem claim_C9 :
    (∀ t f r, SevOk (validateBilingualText t f r)) ∧
    (∀ sp c, SevOk (validateBilingualSpeaker sp c)) ∧
    (∀ s c, SevOk (validateBilingualSession s c)) ∧
    (∀ cat c, SevOk (validateBilingualCategory cat c)) ∧
    (∀ day c, SevOk (validateBilingualDay day c)) ∧
    (∀ d, SevOk (validateBilingualScheduleData d)) ∧
    (∀ d, SevOk (validateBusinessRules d)) :=
  ⟨sevOk_vbtext, sevOk_speaker, sevOk_session, sevOk_category, sevOk_day,
    sevOk_scheduleData, sevOk_businessRules⟩

/-! ### Message classification

To separate one family of diagnostics from another (duplicate-category
errors for C5, the critical-failure report for C8) we enumerate, per
validator, the closed set of message shapes it can produce. -/

/-- The head character of a string (used to tell parametrised messages with
different fixed prefixes apart). -/
def firstChar (s : String) : Option Char :=
  s.data.head?

lemma firstChar_append {a : String} (b : String) {c : Char}
    (h : firstChar a = some c) : firstChar (a ++ b) = some c := by
  obtain ⟨l⟩ := a
  obtain ⟨m⟩ := b
  cases l with
  | nil => simp [firstChar] at h
  | cons x xs =>
    simp only [firstChar, List.head?] at h
    exact h ▸ rfl

lemma ne_of_firstChar {a b : String} (h : firstChar a ≠ firstChar b) : a ≠ b :=
  fun e => h (by rw [e])

/-- The six message shapes `validateBilingualText` can produce for a field. -/
def textMsgSet (f : String) : List String :=
  [reqMsg f, strWarnMsg f, emptyStrMsg f, noLangMsg f, missingEnMsg f, missingZhMsg f]

lemma vbtext_msg_mem (t : TextVal) (f : String) (r : Bool) (e : ValidationError)
    (he : e ∈ (validateBilingualText t f r).errors ∨
      e ∈ (validateBilingualText t f r).warnings) :
    e.message ∈ textMsgSet f := by
  unfold validateBilingualText at he
  split at he
  · rcases he with h | h <;> simp_all [mkError, textMsgSet]
  · split at he
    · rcases he with h | h <;> simp_all
    · cases t with
      | str s =>
        simp only at he
        split at he <;> rcases he with h | h <;>
          simp_all [mkError, mkWarning, textMsgSet]
      | obj en zh =>
        simp only at he
        split at he
        · rcases he with h | h <;> simp_all [mkError, textMsgSet]
        · rcases he with h | h
          · simp at h
          · simp only [List.mem_append] at h
            rcases h with h | h <;> split at h <;>
              simp_all [mkWarning, textMsgSet]
      | undef => rcases he with h | h <;> simp_all

/-- Closed message set of `validateBilingualSpeaker`. -/
def speakerMsgSet : List String :=
  ["Speaker ID is required and must be a non-empty string",
   "Speaker image is missing",
   "Speaker tags should be an array"] ++
  textMsgSet "speaker.name" ++ textMsgSet "speaker.roleOrg"

lemma speaker_msg_mem (sp : BilingualSpeaker) (c : String) (e : ValidationError)
    (he : e ∈ (validateBilingualSpeaker sp c).errors ∨
      e ∈ (validateBilingualSpeaker sp c).warnings) :
    e.message ∈ speakerMsgSet := by
  have hn := vbtext_msg_mem sp.name "speaker.name" true e
  have hr := vbtext_msg_mem sp.roleOrg "speaker.roleOrg" true e
  unfold validateBilingualSpeaker at he
  simp only [List.mem_append] at he
  rcases he with ((h | h) | h) | ((h | h) | h) | h
  · split at h <;> simp_all [mkErrorCtx, speakerMsgSet]
  · simp [speakerMsgSet, hn (Or.inl h)]
  · simp [speakerMsgSet, hr (Or.inl h)]
  · split at h <;> simp_all [mkWarningCtx, speakerMsgSet]
  · split at h <;> simp_all [mkWarningCtx, speakerMsgSet]
  · simp [speakerMsgSet, hn (Or.inr h)]
  · simp [speakerMsgSet, hr (Or.inr h)]

lemma speakersList_msg_mem (ctx : String) (l : List BilingualSpeaker) (i : Nat)
    (e : ValidationError)
    (he : e ∈ (validateSpeakersList ctx l i).1 ∨ e ∈ (validateSpeakersList ctx l i).2) :
    e.message ∈ speakerMsgSet := by
  induction l generalizing i with
  | nil => simp [validateSpeakersList] at he
  | cons sp rest ih =>
    simp only [validateSpeakersList, List.mem_append] at he
    rcases he with (h | h) | (h | h)
    · exact speaker_msg_mem sp _ e (Or.inl h)
    · exact ih (i + 1) (Or.inl h)
    · exact speaker_msg_mem sp _ e (Or.inr h)
    · exact ih (i + 1) (Or.inr h)

/-- Closed message set of `validateBilingualSession`. -/
def sessionMsgSet : List String :=
  ["Session timeSlot is required and must be a non-empty string",
   "Session speakers must be an array"] ++
  textMsgSet "session.date" ++ textMsgSet "session.title" ++
  textMsgSet "session.content" ++ textMsgSet "session.room" ++ speakerMsgSet

lemma session_msg_mem (s : BilingualSession) (c : String) (e : ValidationError)
    (he : e ∈ (validateBilingualSession s c).errors ∨
      e ∈ (validateBilingualSession s c).warnings) :
    e.message ∈ sessionMsgSet := by
  have hd := vbtext_msg_mem s.date "session.date" true e
  have ht := vbtext_msg_mem s.title "session.title" true e
  have hc := vbtext_msg_mem s.content "session.content" true e
  have hroom : ∀ _ : e ∈ (sessionRoomV s).errors ∨ e ∈ (sessionRoomV s).warnings,
      e.message ∈ textMsgSet "session.room" := by
    unfold sessionRoomV
    split
    · exact vbtext_msg_mem s.room "session.room" false e
    · intro h; rcases h with h | h <;> simp_all
  have hsp : ∀ _ : e ∈ (sessionSpeakersPart s c).1 ∨ e ∈ (sessionSpeakersPart s c).2,
      e.message ∈ "Session speakers must be an array" :: speakerMsgSet := by
    unfold sessionSpeakersPart
    cases s.speakers with
    | none =>
      intro h
      rcases h with h | h <;> simp_all [mkErrorCtx]
    | some l =>
      intro h
      exact List.mem_cons_of_mem _ (speakersList_msg_mem c l 0 e h)
  rcases he with h | h
  · rw [session_errors_eq] at h
    simp only [List.mem_append, or_assoc] at h
    rcases h with h | h | h | h | h | h
    · unfold sessionTsErrs at h
      split at h <;> simp_all [mkErrorCtx, sessionMsgSet]
    · simp [sessionMsgSet, hd (Or.inl h)]
    · simp [sessionMsgSet, ht (Or.inl h)]
    · simp [sessionMsgSet, hc (Or.inl h)]
    · simp [sessionMsgSet, hroom (Or.inl h)]
    · have h' := hsp (Or.inl h)
      simp only [List.mem_cons] at h'
      rcases h' with h' | h' <;> simp [sessionMsgSet, h']
  · rw [session_warnings_eq] at h
    simp only [List.mem_append, or_assoc] at h
    rcases h with h | h | h | h | h
    · simp [sessionMsgSet, hd (Or.inr h)]
    · simp [sessionMsgSet, ht (Or.inr h)]
    · simp [sessionMsgSet, hc (Or.inr h)]
    · simp [sessionMsgSet, hroom (Or.inr h)]
    · have h' := hsp (Or.inr h)
      simp only [List.mem_cons] at h'
      rcases h' with h' | h' <;> simp [sessionMsgSet, h']

/-- Closed message set of `validateBilingualCategory`. -/
def categoryMsgSet : List String :=
  ["Category ID is required and must be a non-empty string"] ++
  textMsgSet "category.name" ++ textMsgSet "category.room"

lemma category_msg_mem (cat : BilingualCategory) (c : String) (e : ValidationError)
    (he : e ∈ (validateBilingualCategory cat c).errors ∨
      e ∈ (validateBilingualCategory cat c).warnings) :
    e.message ∈ categoryMsgSet := by
  have hn := vbtext_msg_mem cat.name "category.name" true e
  have hr := vbtext_msg_mem cat.room "category.room" true e
  unfold validateBilingualCategory at he
  rcases he with h | h
  · simp only [List.mem_append, or_assoc] at h
    rcases h with h | h | h
    · split at h <;> simp_all [mkErrorCtx, categoryMsgSet]
    · simp [categoryMsgSet, hn (Or.inl h)]
    · simp [categoryMsgSet, hr (Or.inl h)]
  · simp only [List.mem_append] at h
    rcases h with h | h
    · simp [categoryMsgSet, hn (Or.inr h)]
    · simp [categoryMsgSet, hr (Or.inr h)]

/-- Closed message set of `validateBilingualDay`. -/
def dayMsgSet : List String :=
  textMsgSet "day.date" ++ textMsgSet "day.title" ++ textMsgSet "day.url"

lemma day_msg_mem (day : BilingualDay) (c : String) (e : ValidationError)
    (he : e ∈ (validateBilingualDay day c).errors ∨
      e ∈ (validateBilingualDay day c).warnings) :
    e.message ∈ dayMsgSet := by
  have hd := vbtext_msg_mem day.date "day.date" true e
  have ht := vbtext_msg_mem day.title "day.title" true e
  have hu := vbtext_msg_mem day.url "day.url" true e
  unfold validateBilingualDay at he
  rcases he with h | h <;> simp only [List.mem_append, or_assoc] at h <;>
    rcases h with h | h | h
  · simp [dayMsgSet, hd (Or.inl h)]
  · simp [dayMsgSet, ht (Or.inl h)]
  · simp [dayMsgSet, hu (Or.inl h)]
  · simp [dayMsgSet, hd (Or.inr h)]
  · simp [dayMsgSet, ht (Or.inr h)]
  · simp [dayMsgSet, hu (Or.inr h)]

lemma daysList_msg_mem (ds : List BilingualDay) (i : Nat) (e : ValidationError)
    (he : e ∈ (validateDaysList ds i).1 ∨ e ∈ (validateDaysList ds i).2) :
    e.message ∈ dayMsgSet := by
  induction ds generalizing i with
  | nil => simp [validateDaysList] at he
  | cons d rest ih =>
    simp only [validateDaysList, List.mem_append] at he
    rcases he with (h | h) | (h | h)
    · exact day_msg_mem d _ e (Or.inl h)
    · exact ih (i + 1) (Or.inl h)
    · exact day_msg_mem d _ e (Or.inr h)
    · exact ih (i + 1) (Or.inr h)

lemma catsList_msg_mem (cs : List BilingualCategory) (i : Nat) (ids : List String)
    (e : ValidationError)
    (he : e ∈ (validateCatsList cs i ids).1 ∨ e ∈ (validateCatsList cs i ids).2) :
    e.message ∈ categoryMsgSet ∨ ∃ id, e.message = dupCatMsg id := by
  induction cs generalizing i ids with
  | nil => simp [validateCatsList] at he
  | cons c rest ih =>
    unfold validateCatsList at he
    rcases he with h | h
    · split at h
      · split at h
        · simp only [List.mem_append, or_assoc] at h
          rcases h with h | h | h
          · exact Or.inl (category_msg_mem c _ e (Or.inl h))
          · simp only [List.mem_singleton] at h
            exact Or.inr ⟨c.id, by simp [h, mkDupCatError]⟩
          · exact ih (i + 1) ids (Or.inl h)
        · simp only [List.mem_append] at h
          rcases h with h | h
          · exact Or.inl (category_msg_mem c _ e (Or.inl h))
          · exact ih (i + 1) (ids ++ [c.id]) (Or.inl h)
      · simp only [List.mem_append] at h
        rcases h with h | h
        · exact Or.inl (category_msg_mem c _ e (Or.inl h))
        · exact ih (i + 1) ids (Or.inl h)
    · split at h
      · split at h
        · simp only [List.mem_append] at h
          rcases h with h | h
          · exact Or.inl (category_msg_mem c _ e (Or.inr h))
          · exact ih (i + 1) ids (Or.inr h)
        · simp only [List.mem_append] at h
          rcases h with h | h
          · exact Or.inl (category_msg_mem c _ e (Or.inr h))
          · exact ih (i + 1) (ids ++ [c.id]) (Or.inr h)
      · simp only [List.mem_append] at h
        rcases h with h | h
        · exact Or.inl (category_msg_mem c _ e (Or.inr h))
        · exact ih (i + 1) ids (Or.inr h)

lemma sessionList_msg_mem (cid : String) (l : List BilingualSession) (i : Nat)
    (e : ValidationError)
    (he : e ∈ (validateSessionList cid l i).1 ∨ e ∈ (validateSessionList cid l i).2) :
    e.message ∈ sessionMsgSet := by
  induction l generalizing i with
  | nil => simp [validateSessionList] at he
  | cons s rest ih =>
    simp only [validateSessionList, List.mem_append] at he
    rcases he with (h | h) | (h | h)
    · exact session_msg_mem s _ e (Or.inl h)
    · exact ih (i + 1) (Or.inl h)
    · exact session_msg_mem s _ e (Or.inr h)
    · exact ih (i + 1) (Or.inr h)

lemma sessionsEntries_msg_mem (catIds : List String)
    (entries : List (String × Option (List BilingualSession))) (e : ValidationError)
    (he : e ∈ (validateSessionsEntries catIds entries).1 ∨
      e ∈ (validateSessionsEntries catIds entries).2) :
    e.message ∈ sessionMsgSet ∨ (∃ cid, e.message = orphanMsg cid) ∨
      ∃ cid, e.message = bucketMsg cid := by
  induction entries with
  | nil => simp [validateSessionsEntries] at he
  | cons p rest ih =>
    obtain ⟨cid, bucket⟩ := p
    have hbucket : ∀ _ : e ∈ (validateBucket cid bucket).1 ∨
        e ∈ (validateBucket cid bucket).2,
        e.message ∈ sessionMsgSet ∨ e.message = bucketMsg cid := by
      unfold validateBucket
      cases bucket with
      | none =>
        intro h
        rcases h with h | h <;> simp_all [mkBucketError]
      | some l =>
        intro h
        exact Or.inl (sessionList_msg_mem cid l 0 e h)
    rcases he with h | h
    · have h' : e ∈ (validateBucket cid bucket).1 ∨
          e ∈ (validateSessionsEntries catIds rest).1 := by
        simpa [validateSessionsEntries, List.mem_append] using h
      rcases h' with h' | h'
      · rcases hbucket (Or.inl h') with hh | hh
        · exact Or.inl hh
        · exact Or.inr (Or.inr ⟨cid, hh⟩)
      · exact ih (Or.inl h')
    · have h' : e ∈ (if catIds.contains cid then [] else [mkOrphanWarning cid]) ∨
          e ∈ (validateBucket cid bucket).2 ∨
          e ∈ (validateSessionsEntries catIds rest).2 := by
        simpa [validateSessionsEntries, List.mem_append, or_assoc] using h
      rcases h' with h' | h' | h'
      · split at h'
        · simp at h'
        · simp only [List.mem_singleton] at h'
          exact Or.inr (Or.inl ⟨cid, by simp [h', mkOrphanWarning]⟩)
      · rcases hbucket (Or.inr h') with hh | hh
        · exact Or.inl hh
        · exact Or.inr (Or.inr ⟨cid, hh⟩)
      · exact ih (Or.inr h')

/-- The closed top-level messages of `validateBilingualScheduleData`. -/
def topMsgSet : List String :=
  ["Days must be an array", "Categories must be an array", "Sessions must be an object",
   "Schedule data must be a valid object"]

/-- Complete classification of the messages `validateBilingualScheduleData`
can emit: a member of the closed sets, a duplicate-category message, an
orphaned-session message, or a non-array-bucket message. -/
lemma scheduleData_msg_mem (d : Option BilingualScheduleData) (e : ValidationError)
    (he : e ∈ (validateBilingualScheduleData d).errors ∨
      e ∈ (validateBilingualScheduleData d).warnings) :
    e.message ∈ topMsgSet ++ dayMsgSet ++ categoryMsgSet ++ sessionMsgSet ∨
      (∃ id, e.message = dupCatMsg id) ∨ (∃ cid, e.message = orphanMsg cid) ∨
      ∃ cid, e.message = bucketMsg cid := by
  cases d with
  | none =>
    rcases he with h | h <;>
      simp_all [validateBilingualScheduleData, mkError, topMsgSet]
  | some d =>
    have hdays : ∀ _ : e ∈ (daysPart d.days).1 ∨ e ∈ (daysPart d.days).2,
        e.message = "Days must be an array" ∨ e.message ∈ dayMsgSet := by
      unfold daysPart
      cases d.days with
      | none => intro h; rcases h with h | h <;> simp_all [mkError]
      | some ds => intro h; exact Or.inr (daysList_msg_mem ds 0 e h)
    have hcats : ∀ _ : e ∈ (catsPart d.categories).1 ∨ e ∈ (catsPart d.categories).2,
        e.message = "Categories must be an array" ∨ e.message ∈ categoryMsgSet ∨
          ∃ id, e.message = dupCatMsg id := by
      unfold catsPart
      cases d.categories with
      | none => intro h; rcases h with h | h <;> simp_all [mkError]
      | some cs =>
        intro h
        rcases catsList_msg_mem cs 0 [] e h with h' | h'
        · exact Or.inr (Or.inl h')
        · exact Or.inr (Or.inr h')
    have hsess : ∀ _ : e ∈ (sessPart (catIdsOf d) d.sessions).1 ∨
        e ∈ (sessPart (catIdsOf d) d.sessions).2,
        e.message = "Sessions must be an object" ∨ e.message ∈ sessionMsgSet ∨
          (∃ cid, e.message = orphanMsg cid) ∨ ∃ cid, e.message = bucketMsg cid := by
      unfold sessPart
      cases d.sessions with
      | none => intro h; rcases h with h | h <;> simp_all [mkError]
      | some entries =>
        intro h
        rcases sessionsEntries_msg_mem (catIdsOf d) entries e h with h' | h' | h'
        · exact Or.inr (Or.inl h')
        · exact Or.inr (Or.inr (Or.inl h'))
        · exact Or.inr (Or.inr (Or.inr h'))
    rcases he with h | h
    · rw [show validateBilingualScheduleData (some d) = validateScheduleDataCore d from rfl,
        scheduleCore_errors_eq] at h
      simp only [List.mem_append, or_assoc] at h
      rcases h with h | h | h
      · rcases hdays (Or.inl h) with h' | h' <;> simp [topMsgSet, h']
      · rcases hcats (Or.inl h) with h' | h' | h'
        · simp [topMsgSet, h']
        · simp [h']
        · exact Or.inr (Or.inl h')
      · rcases hsess (Or.inl h) with h' | h' | h' | h'
        · simp [topMsgSet, h']
        · simp [h']
        · exact Or.inr (Or.inr (Or.inl h'))
        · exact Or.inr (Or.inr (Or.inr h'))
    · rw [show validateBilingualScheduleData (some d) = validateScheduleDataCore d from rfl,
        scheduleCore_warnings_eq] at h
      simp only [List.mem_append, or_assoc] at h
      rcases h with h | h | h
      · rcases hdays (Or.inr h) with h' | h' <;> simp [topMsgSet, h']
      · rcases hcats (Or.inr h) with h' | h' | h'
        · simp [topMsgSet, h']
        · simp [h']
        · exact Or.inr (Or.inl h')
      · rcases hsess (Or.inr h) with h' | h' | h' | h'
        · simp [topMsgSet, h']
        · simp [h']
        · exact Or.inr (Or.inr (Or.inl h'))
        · exact Or.inr (Or.inr (Or.inr h'))

/-! ### C5: duplicate category ids -/

/-- The duplicate-category errors emitted by the categories walk, in
isolation (same recursion and `categoryIds`-set threading as
`validateCatsList`, keeping only the duplicate-id pushes). -/
def dupCatErrsList : List BilingualCategory → Nat → List String → List ValidationError
  | [], _, _ => []
  | c :: rest, i, ids =>
    if c.id != "" then
      if ids.contains c.id then mkDupCatError c.id i :: dupCatErrsList rest (i + 1) ids
      else dupCatErrsList rest (i + 1) (ids ++ [c.id])
    else dupCatErrsList rest (i + 1) ids

/-- Is this error the duplicate-category error for id `"a"`? -/
def isDupA (e : ValidationError) : Bool :=
  e.message == dupCatMsg "a"

lemma closedSet_not_dupA :
    ∀ m ∈ topMsgSet ++ dayMsgSet ++ categoryMsgSet ++ sessionMsgSet,
      m ≠ dupCatMsg "a" := by
  decide

lemma orphan_ne_dupA (cid : String) : orphanMsg cid ≠ dupCatMsg "a" := by
  apply ne_of_firstChar
  have h1 : firstChar (orphanMsg cid) = some 'S' := by
    unfold orphanMsg
    exact firstChar_append _ (firstChar_append _ rfl)
  have h2 : firstChar (dupCatMsg "a") = some 'D' := rfl
  rw [h1, h2]
  simp

lemma bucket_ne_dupA (cid : String) : bucketMsg cid ≠ dupCatMsg "a" := by
  apply ne_of_firstChar
  have h1 : firstChar (bucketMsg cid) = some 'S' := by
    unfold bucketMsg
    exact firstChar_append _ (firstChar_append _ rfl)
  have h2 : firstChar (dupCatMsg "a") = some 'D' := rfl
  rw [h1, h2]
  simp

lemma dupCatMsg_inj {id : String} (h : dupCatMsg id = dupCatMsg "a") : id = "a" := by
  unfold dupCatMsg at h
  have h' := congrArg String.data h
  simp only [String.data_append, List.append_assoc] at h'
  have h'' := List.append_cancel_left h'
  have h3 := List.append_cancel_right h''
  exact congrArg String.mk h3

/-- Days-part errors never match the duplicate-category message. -/
lemma daysPart_filter_dupA (dv : Option (List BilingualDay)) :
    (daysPart dv).1.filter isDupA = [] := by
  rw [List.filter_eq_nil_iff]
  intro e he
  unfold daysPart at he
  cases dv with
  | none =>
    simp only [List.mem_singleton] at he
    simp [he, isDupA, mkError]
    decide
  | some ds =>
    have := daysList_msg_mem ds 0 e (Or.inl he)
    have hne : e.message ≠ dupCatMsg "a" := closedSet_not_dupA e.message (by simp [this])
    simp [isDupA, hne]

/-- Sessions-part errors never match the duplicate-category message. -/
lemma sessPart_filter_dupA (catIds : List String)
    (sv : Option (List (String × Option (List BilingualSession)))) :
    (sessPart catIds sv).1.filter isDupA = [] := by
  rw [List.filter_eq_nil_iff]
  intro e he
  unfold sessPart at he
  cases sv with
  | none =>
    simp only [List.mem_singleton] at he
    simp [he, isDupA, mkError]
    decide
  | some entries =>
    rcases sessionsEntries_msg_mem catIds entries e (Or.inl he) with h | ⟨cid, h⟩ | ⟨cid, h⟩
    · have hne : e.message ≠ dupCatMsg "a" := closedSet_not_dupA e.message (by simp [h])
      simp [isDupA, hne]
    · simp [isDupA, h, orphan_ne_dupA cid]
    · simp [isDupA, h, bucket_ne_dupA cid]

/-- Within the categories walk, filtering for the duplicate-`"a"` message
discards the per-category validations and keeps exactly the matching
duplicate errors. -/
lemma catsList_filter_dupA (cs : List BilingualCategory) (i : Nat) (ids : List String) :
    (validateCatsList cs i ids).1.filter isDupA =
      (dupCatErrsList cs i ids).filter isDupA := by
  induction cs generalizing i ids with
  | nil => simp [validateCatsList, dupCatErrsList]
  | cons c rest ih =>
    have hcatv : (validateBilingualCategory c
        ("categories[" ++ toString i ++ "]")).errors.filter isDupA = [] := by
      rw [List.filter_eq_nil_iff]
      intro e he
      have := category_msg_mem c _ e (Or.inl he)
      have hne : e.message ≠ dupCatMsg "a" := closedSet_not_dupA e.message (by simp [this])
      simp [isDupA, hne]
    unfold validateCatsList dupCatErrsList
    split
    · split
      · simp only [List.filter_append, hcatv, List.filter_cons, List.nil_append]
        rw [ih]
        split <;> simp
      · simp only [List.filter_append, hcatv, List.nil_append]
        exact ih (i + 1) (ids ++ [c.id])
    · simp only [List.filter_append, hcatv, List.nil_append]
      exact ih (i + 1) ids

/-- With every id occurring at most once (counting the already-seen set),
no duplicate error is emitted. -/
lemma dupCatErrs_nil (cs : List BilingualCategory) (n : Nat) (ids : List String)
    (h : ∀ b, ids.count b + (cs.map (·.id)).count b ≤ 1) :
    dupCatErrsList cs n ids = [] := by
  induction cs generalizing n ids with
  | nil => rfl
  | cons c rest ih =>
    have hc := h c.id
    simp only [List.map_cons, List.count_cons, beq_self_eq_true, if_true] at hc
    unfold dupCatErrsList
    split
    · split
      · rename_i hcont
        have hmem : c.id ∈ ids := by simpa using hcont
        have := List.count_pos_iff.2 hmem
        omega
      · apply ih
        intro b
        rw [List.count_append]
        have hb := h b
        simp only [List.map_cons, List.count_cons] at hb
        by_cases hbe : b = c.id
        · subst hbe
          simp only [beq_self_eq_true, if_true] at hb
          simp only [List.count_cons, List.count_nil, beq_self_eq_true, if_true]
          omega
        · have hbeq : (c.id == b) = false := by
            rw [beq_eq_false_iff_ne]; exact fun he => hbe he.symm
          simp only [hbeq, Bool.false_eq_true, if_false] at hb
          simp only [List.count_cons, List.count_nil, hbeq, Bool.false_eq_true, if_false]
          omega
    · apply ih
      intro b
      have hb := h b
      simp only [List.map_cons, List.count_cons] at hb
      by_cases hbe : b = c.id
      · subst hbe
        simp only [beq_self_eq_true, if_true] at hb
        omega
      · have hbeq : (c.id == b) = false := by
          rw [beq_eq_false_iff_ne]; exact fun he => hbe he.symm
        simp only [hbeq, Bool.false_eq_true, if_false] at hb
        omega

/-- With `"a"` already seen once and occurring once more in the remaining
categories (everything else at most once), exactly one duplicate error is
emitted, for `"a"`. -/
lemma dupCatErrs_seen (cs : List BilingualCategory) (n : Nat) (ids : List String)
    (h : ∀ b, b ≠ "a" → ids.count b + (cs.map (·.id)).count b ≤ 1)
    (haid : ids.count "a" = 1)
    (hc1 : (cs.map (·.id)).count "a" = 1) :
    ∃ i, dupCatErrsList cs n ids = [mkDupCatError "a" i] := by
  induction cs generalizing n ids with
  | nil => simp at hc1
  | cons c rest ih =>
    unfold dupCatErrsList
    by_cases hca : c.id = "a"
    · have hcontT : ids.contains "a" = true := by
        have : "a" ∈ ids := List.count_pos_iff.1 (by omega)
        simpa using this
      rw [if_pos (by simp [hca]), hca, if_pos hcontT]
      have hrest : (rest.map (·.id)).count "a" = 0 := by
        simp only [List.map_cons, List.count_cons, hca, beq_self_eq_true, if_true] at hc1
        omega
      have hnil : dupCatErrsList rest (n + 1) ids = [] := by
        apply dupCatErrs_nil
        intro b
        by_cases hb : b = "a"
        · subst hb; omega
        · have hbgen := h b hb
          simp only [List.map_cons, List.count_cons] at hbgen
          have hbeq : (c.id == b) = false := by
            rw [beq_eq_false_iff_ne, hca]; exact fun he => hb he.symm
          simp only [hbeq, Bool.false_eq_true, if_false] at hbgen
          omega
      exact ⟨n, by rw [hnil]⟩
    · have hceq : (c.id == "a") = false := by rw [beq_eq_false_iff_ne]; exact hca
      have hc1r : (rest.map (·.id)).count "a" = 1 := by
        simp only [List.map_cons, List.count_cons, hceq, Bool.false_eq_true, if_false] at hc1
        exact hc1
      have hcnt := h c.id hca
      simp only [List.map_cons, List.count_cons, beq_self_eq_true, if_true] at hcnt
      split
      · split
        · rename_i hcont
          exfalso
          have hmem : c.id ∈ ids := by simpa using hcont
          have := List.count_pos_iff.2 hmem
          omega
        · apply ih (n + 1) (ids ++ [c.id])
          · intro b hb
            rw [List.count_append]
            have hbgen := h b hb
            simp only [List.map_cons, List.count_cons] at hbgen
            by_cases hbe : b = c.id
            · subst hbe
              simp only [beq_self_eq_true, if_true] at hbgen
              simp only [List.count_cons, List.count_nil, beq_self_eq_true, if_true]
              omega
            · have hbeq : (c.id == b) = false := by
                rw [beq_eq_false_iff_ne]; exact fun he => hbe he.symm
              simp only [hbeq, Bool.false_eq_true, if_false] at hbgen
              simp only [List.count_cons, List.count_nil, hbeq, Bool.false_eq_true, if_false]
              omega
          · rw [List.count_append]
            simp only [List.count_cons, List.count_nil, hceq, Bool.false_eq_true, if_false]
            omega
          · exact hc1r
      · apply ih (n + 1) ids
        · intro b hb
          have hbgen := h b hb
          simp only [List.map_cons, List.count_cons] at hbgen
          by_cases hbe : b = c.id
          · subst hbe
            simp only [beq_self_eq_true, if_true] at hbgen
            omega
          · have hbeq : (c.id == b) = false := by
              rw [beq_eq_false_iff_ne]; exact fun he => hbe he.symm
            simp only [hbeq, Bool.false_eq_true, if_false] at hbgen
            omega
        · exact haid
        · exact hc1r

/-- With `"a"` not yet seen and occurring exactly twice (everything else at
most once), exactly one duplicate error is emitted, for `"a"`. -/
lemma dupCatErrs_two (cs : List BilingualCategory) (n : Nat) (ids : List String)
    (h : ∀ b, b ≠ "a" → ids.count b + (cs.map (·.id)).count b ≤ 1)
    (haid : ids.count "a" = 0)
    (hc2 : (cs.map (·.id)).count "a" = 2) :
    ∃ i, dupCatErrsList cs n ids = [mkDupCatError "a" i] := by
  induction cs generalizing n ids with
  | nil => simp at hc2
  | cons c rest ih =>
    unfold dupCatErrsList
    by_cases hca : c.id = "a"
    · have hcontF : ids.contains "a" = false := by
        simpa using List.count_eq_zero.1 haid
      rw [if_pos (by simp [hca]), hca, if_neg (by rw [hcontF]; simp)]
      apply dupCatErrs_seen rest (n + 1) (ids ++ ["a"])
      · intro b hb
        rw [List.count_append]
        have hbgen := h b hb
        simp only [List.map_cons, List.count_cons] at hbgen
        have hbeq : (c.id == b) = false := by
          rw [beq_eq_false_iff_ne, hca]; exact fun he => hb he.symm
        have hbeq2 : ("a" == b) = false := by
          rw [beq_eq_false_iff_ne]; exact fun he => hb he.symm
        simp only [hbeq, Bool.false_eq_true, if_false] at hbgen
        simp only [List.count_cons, List.count_nil, hbeq2, Bool.false_eq_true, if_false]
        omega
      · rw [List.count_append]
        simp only [List.count_cons, List.count_nil, beq_self_eq_true, if_true]
        omega
      · simp only [List.map_cons, List.count_cons, hca, beq_self_eq_true, if_true] at hc2
        omega
    · have hceq : (c.id == "a") = false := by rw [beq_eq_false_iff_ne]; exact hca
      have hc2r : (rest.map (·.id)).count "a" = 2 := by
        simp only [List.map_cons, List.count_cons, hceq, Bool.false_eq_true, if_false] at hc2
        exact hc2
      have hcnt := h c.id hca
      simp only [List.map_cons, List.count_cons, beq_self_eq_true, if_true] at hcnt
      split
      · split
        · rename_i hcont
          exfalso
          have hmem : c.id ∈ ids := by simpa using hcont
          have := List.count_pos_iff.2 hmem
          omega
        · apply ih (n + 1) (ids ++ [c.id])
          · intro b hb
            rw [List.count_append]
            have hbgen := h b hb
            simp only [List.map_cons, List.count_cons] at hbgen
            by_cases hbe : b = c.id
            · subst hbe
              simp only [beq_self_eq_true, if_true] at hbgen
              simp only [List.count_cons, List.count_nil, beq_self_eq_true, if_true]
              omega
            · have hbeq : (c.id == b) = false := by
                rw [beq_eq_false_iff_ne]; exact fun he => hbe he.symm
              simp only [hbeq, Bool.false_eq_true, if_false] at hbgen
              simp only [List.count_cons, List.count_nil, hbeq, Bool.false_eq_true, if_false]
              omega
          · rw [List.count_append]
            simp only [List.count_cons, List.count_nil, hceq, Bool.false_eq_true, if_false]
            omega
          · exact hc2r
      · apply ih (n + 1) ids
        · intro b hb
          have hbgen := h b hb
          simp only [List.map_cons, List.count_cons] at hbgen
          by_cases hbe : b = c.id
          · subst hbe
            simp only [beq_self_eq_true, if_true] at hbgen
            omega
          · have hbeq : (c.id == b) = false := by
              rw [beq_eq_false_iff_ne]; exact fun he => hbe he.symm
            simp only [hbeq, Bool.false_eq_true, if_false] at hbgen
            omega
        · exact haid
        · exact hc2r

/-- **C5.** For a document whose categories contain exactly two entries
with id `"a"` (all other ids occurring at most once),
`validateBilingualScheduleData` reports exactly one duplicate-category-id
error — the filter on the duplicate message for `"a"` yields a single
entry — and that message names `"a"` (it contains the quoted id). -/
theorem claim_C5 (d : BilingualScheduleData) (cats : List BilingualCategory)
    (hcats : d.categories = some cats)
    (h2 : (cats.map (·.id)).count "a" = 2)
    (h1 : ∀ b, b ≠ "a" → (cats.map (·.id)).count b ≤ 1) :
    ∃ i, (validateBilingualScheduleData (some d)).errors.filter isDupA =
      [mkDupCatError "a" i] ∧ strIncludes (mkDupCatError "a" i).message "\x27a\x27" = true := by
  obtain ⟨i, hi⟩ := dupCatErrs_two cats 0 []
    (fun b hb => by simpa using h1 b hb) (by simp) h2
  refine ⟨i, ?_, by show strIncludes (dupCatMsg "a") "\x27a\x27" = true; decide⟩
  rw [show validateBilingualScheduleData (some d) = validateScheduleDataCore d from rfl,
    scheduleCore_errors_eq, List.filter_append, List.filter_append,
    daysPart_filter_dupA, sessPart_filter_dupA, hcats]
  simp only [catsPart]
  rw [catsList_filter_dupA, hi]
  simp [isDupA, mkDupCatError]

/-- Closed instance of C5: two categories with id `"a"` and one with id
`"b"`, every hypothesis discharged concretely. -/
def c5cat (i : String) : BilingualCategory :=
  ⟨.obj (some "n") (some "n"), .obj (some "r") (some "r"), i⟩

/-- Witness for C5 at a concrete document. -/
theorem claim_C5_witness :
    ∃ i, (validateBilingualScheduleData
        (some ⟨some [], some [c5cat "a", c5cat "b", c5cat "a"], some []⟩)).errors.filter isDupA =
      [mkDupCatError "a" i] ∧ strIncludes (mkDupCatError "a" i).message "\x27a\x27" = true :=
  claim_C5 ⟨some [], some [c5cat "a", c5cat "b", c5cat "a"], some []⟩
    [c5cat "a", c5cat "b", c5cat "a"] rfl (by decide)
    (fun b hb => by
      have hbeq : ("a" == b) = false := by
        rw [beq_eq_false_iff_ne]; exact fun he => hb he.symm
      simp only [c5cat, List.map_cons, List.map_nil, List.count_cons, List.count_nil, hbeq,
        Bool.false_eq_true, if_false]
      split <;> omega)

/-! ### C8: the safe processor never lets a failure escape -/

/-- The messages `safeGetBilingualText` can report for a given language. -/
def safeGetMsgSet (lang : Lang) : List String :=
  ["Text object is null or undefined",
   "Missing " ++ langStr lang ++ " translation, using Chinese",
   "Missing " ++ langStr lang ++ " translation, using English",
   "No valid text found in bilingual object",
   "Invalid bilingual text object structure"]

lemma safeGet_msg_mem (t : TextVal) (lang : Lang) (fb : String) :
    ∀ m ∈ (safeGetBilingualText t lang fb).2, m.1 ∈ safeGetMsgSet lang := by
  intro m hm
  unfold safeGetBilingualText at hm
  split at hm
  · simp only [List.mem_singleton] at hm
    simp [hm, safeGetMsgSet]
  · cases t with
    | str s =>
      simp at hm
    | undef =>
      simp only [List.mem_singleton] at hm
      simp [hm, safeGetMsgSet]
    | obj en zh =>
      simp only at hm
      split at hm
      · split at hm
        · simp at hm
        · split at hm
          · simp at hm
          · split at hm
            · simp only [List.mem_singleton] at hm
              simp [hm, safeGetMsgSet]
            · split at hm
              · simp only [List.mem_singleton] at hm
                simp [hm, safeGetMsgSet]
              · simp only [List.mem_singleton] at hm
                simp [hm, safeGetMsgSet]
      · simp only [List.mem_singleton] at hm
        simp [hm, safeGetMsgSet]

/-- The full report stream of the safe processor's object branch, spelled
out: forwarded validation errors (when invalid), forwarded warnings, then
the per-day url reports in traversal order. -/
lemma safeProcessCore_msgs_eq (d : BilingualScheduleData) :
    (safeProcessCore d).2 =
      ((if !(validateScheduleDataCore d).isValid then
          (validateScheduleDataCore d).errors.map (fun e => (e.message, e.context))
        else []) ++
        (validateScheduleDataCore d).warnings.map (fun w => (w.message, w.context))) ++
      (((d.days.getD []).map processDay).map (·.2)).flatten := rfl

lemma closedSet_not_crit :
    ∀ m ∈ topMsgSet ++ dayMsgSet ++ categoryMsgSet ++ sessionMsgSet,
      m ≠ criticalReport.1 := by
  decide

lemma safeGetSet_not_crit (lang : Lang) :
    ∀ m ∈ safeGetMsgSet lang, m ≠ criticalReport.1 := by
  cases lang <;> decide

lemma dup_ne_crit (id : String) : dupCatMsg id ≠ criticalReport.1 := by
  apply ne_of_firstChar
  have h1 : firstChar (dupCatMsg id) = some 'D' := by
    unfold dupCatMsg
    exact firstChar_append _ (firstChar_append _ rfl)
  rw [h1]
  simp [criticalReport, firstChar]

lemma orphan_ne_crit (cid : String) : orphanMsg cid ≠ criticalReport.1 := by
  apply ne_of_firstChar
  have h1 : firstChar (orphanMsg cid) = some 'S' := by
    unfold orphanMsg
    exact firstChar_append _ (firstChar_append _ rfl)
  rw [h1]
  simp [criticalReport, firstChar]

lemma bucket_ne_crit (cid : String) : bucketMsg cid ≠ criticalReport.1 := by
  apply ne_of_firstChar
  have h1 : firstChar (bucketMsg cid) = some 'S' := by
    unfold bucketMsg
    exact firstChar_append _ (firstChar_append _ rfl)
  rw [h1]
  simp [criticalReport, firstChar]

/-- No validation message coincides with the critical-failure report. -/
lemma validation_msg_ne_crit (d : BilingualScheduleData) (e : ValidationError)
    (he : e ∈ (validateScheduleDataCore d).errors ∨
      e ∈ (validateScheduleDataCore d).warnings) :
    e.message ≠ criticalReport.1 := by
  have h := scheduleData_msg_mem (some d) e he
  rcases h with h | ⟨id, h⟩ | ⟨cid, h⟩ | ⟨cid, h⟩
  · exact closedSet_not_crit e.message h
  · rw [h]; exact dup_ne_crit id
  · rw [h]; exact orphan_ne_crit cid
  · rw [h]; exact bucket_ne_crit cid

/-- The safe processor's object branch never emits the critical report. -/
lemma core_no_crit (d : BilingualScheduleData) :
    criticalReport ∉ (safeProcessCore d).2 := by
  intro hmem
  rw [safeProcessCore_msgs_eq] at hmem
  rcases List.mem_append.1 hmem with h | h
  · rcases List.mem_append.1 h with h | h
    · split at h
      · rcases List.mem_map.1 h with ⟨e, hin, heq⟩
        exact validation_msg_ne_crit d e (Or.inl hin) (by rw [← heq])
      · simp at h
    · rcases List.mem_map.1 h with ⟨e, hin, heq⟩
      exact validation_msg_ne_crit d e (Or.inr hin) (by rw [← heq])
  · rcases List.mem_flatten.1 h with ⟨l, hl, hml⟩
    rcases List.mem_map.1 hl with ⟨run, hrun, hleq⟩
    rcases List.mem_map.1 hrun with ⟨day, _, hday⟩
    subst hleq
    rw [← hday] at hml
    have hpd : (processDay day).2 =
        (safeGetBilingualText day.url .en "").2 ++
        (safeGetBilingualText day.url .zh "").2 := rfl
    rw [hpd] at hml
    rcases List.mem_append.1 hml with h' | h'
    · exact safeGetSet_not_crit .en _ (safeGet_msg_mem day.url .en "" _ h') rfl
    · exact safeGetSet_not_crit .zh _ (safeGet_msg_mem day.url .zh "" _ h') rfl

/-- **C8.** `safeProcessBilingualSchedule` never propagates a failure.  For
a non-object document (`none`), the validation error is reported, the
top-level `catch` reports the thrown `TypeError` exactly once, and the
original input is returned unchanged.  For every object document the
processor completes: it returns a processed document and the critical
failure report never appears in the callback stream. -/
theorem claim_C8 :
    (∀ lang, safeProcessBilingualSchedule none lang =
      (none, [("Schedule data must be a valid object", none), criticalReport])) ∧
    (∀ d lang, (safeProcessBilingualSchedule (some d) lang).1 = some (safeProcessCore d).1 ∧
      criticalReport ∉ (safeProcessBilingualSchedule (some d) lang).2) := by
  constructor
  · intro lang
    rfl
  · intro d lang
    exact ⟨rfl, core_no_crit d⟩

/-! ### C4: duplicate speaker ids -/

lemma dupScan_nodup : ∀ (ids seen dups : List String), dups.Nodup →
    (dupScan ids seen dups).Nodup := by
  intro ids
  induction ids with
  | nil => intro seen dups h; exact h
  | cons id rest ih =>
    intro seen dups h
    unfold dupScan
    split
    · exact ih seen dups h
    · split
      · split
        · exact ih seen dups h
        · rename_i hnc
          apply ih
          have hnm : id ∉ dups := by simpa using hnc
          simp [List.nodup_append, h, hnm]
      · exact ih (seen ++ [id]) dups h

/-- Membership characterisation of the duplicate-speaker scan with general
accumulators. -/
lemma dupScan_mem : ∀ (ids seen dups : List String) (x : String),
    x ∈ dupScan ids seen dups ↔
      x ∈ dups ∨ (x ≠ "" ∧ ((x ∈ seen ∧ 1 ≤ ids.count x) ∨ 2 ≤ ids.count x)) := by
  intro ids
  induction ids with
  | nil =>
    intro seen dups x
    simp [dupScan]
  | cons id rest ih =>
    intro seen dups x
    unfold dupScan
    split
    · -- id == "" : skipped
      rename_i hid
      have hid' : id = "" := by simpa using hid
      rw [ih]
      by_cases hx : x = ""
      · simp [hx]
      · have : (id == x) = false := by
          rw [beq_eq_false_iff_ne, hid']
          exact fun he => hx he.symm
        simp only [List.count_cons, this, Bool.false_eq_true, if_false, Nat.add_zero]
      -- both sides coincide once the head (an empty id) is discounted
    · rename_i hid
      have hid' : id ≠ "" := by simpa using hid
      split
      · -- id already seen: record it (deduplicated)
        rename_i hseen
        have hseen' : id ∈ seen := by simpa using hseen
        rw [ih]
        by_cases hx : x = id
        · subst hx
          have hdups : x ∈ (if dups.contains x then dups else dups ++ [x]) := by
            split
            · rename_i hc; simpa using hc
            · simp
          simp only [List.count_cons, beq_self_eq_true, if_true]
          constructor
          · intro _
            exact Or.inr ⟨hid', Or.inl ⟨hseen', by omega⟩⟩
          · intro _
            exact Or.inl hdups
        · have hxid : (id == x) = false := by
            rw [beq_eq_false_iff_ne]; exact fun he => hx he.symm
          have hdups : (x ∈ (if dups.contains id then dups else dups ++ [id])) ↔ x ∈ dups := by
            split
            · exact Iff.rfl
            · simp [hx]
          rw [hdups]
          simp only [List.count_cons, hxid, Bool.false_eq_true, if_false, Nat.add_zero]
      · -- id not seen yet: extend the seen set
        rename_i hseen
        have hseen' : id ∉ seen := by simpa using hseen
        rw [ih]
        by_cases hx : x = id
        · subst hx
          simp only [List.count_cons, beq_self_eq_true, if_true]
          constructor
          · intro h
            rcases h with h | ⟨hne, h⟩
            · exact Or.inl h
            · rcases h with ⟨hmem, hcnt⟩ | hcnt
              · exact Or.inr ⟨hne, Or.inr (by omega)⟩
              · exact Or.inr ⟨hne, Or.inr (by omega)⟩
          · intro h
            rcases h with h | ⟨hne, h⟩
            · exact Or.inl h
            · rcases h with ⟨hmem, _⟩ | hcnt
              · exact absurd hmem hseen'
              · exact Or.inr ⟨hne, Or.inl ⟨by simp, by omega⟩⟩
        · have hxid : (id == x) = false := by
            rw [beq_eq_false_iff_ne]; exact fun he => hx he.symm
          have hmem : (x ∈ seen ++ [id]) ↔ x ∈ seen := by simp [hx]
          rw [hmem]
          simp only [List.count_cons, hxid, Bool.false_eq_true, if_false, Nat.add_zero]

/-- From empty accumulators: an id is reported exactly when it is non-empty
and occurs at least twice. -/
lemma dupScan_spec (ids : List String) (x : String) :
    x ∈ dupScan ids [] [] ↔ x ≠ "" ∧ 2 ≤ ids.count x := by
  rw [dupScan_mem]
  simp

/-- Under a well-formed `sessions` object (every bucket an array), the
business-rule warnings are the five phases in order. -/
lemma br_warnings_eq (d : BilingualScheduleData)
    (entries : List (String × Option (List BilingualSession)))
    (hss : d.sessions = some entries)
    (hall : ((entries.map (·.2)).all Option.isSome) = true) :
    (validateBusinessRules (some d)).warnings =
      brOrphanWarns (dedupKeepFirst (catIdsOf d) []) entries ++
      brNoSessWarns (dedupKeepFirst (catIdsOf d) []) entries ++
      brDupSpeakerWarns (entries.map (·.2)) ++ brTimeWarns (entries.map (·.2)) ++
      brImageWarns (entries.map (·.2)) := by
  have hred : validateBusinessRules (some d) = validateBusinessRulesCore d := rfl
  rw [hred]
  obtain ⟨dd, dc, ds⟩ := d
  simp only at hss
  subst hss
  unfold validateBusinessRulesCore
  dsimp only
  rw [if_pos hall]

/-- The predicate picking the duplicate-speaker warnings. -/
def isSpeakersField (w : ValidationError) : Bool :=
  w.field == "speakers"

lemma timeSlotWarnList_field (l : List BilingualSession) (i : Nat) :
    ∀ w ∈ timeSlotWarnList l i, w.field = "session.timeSlot" := by
  induction l generalizing i with
  | nil => simp [timeSlotWarnList]
  | cons s rest ih =>
    intro w hw
    simp only [timeSlotWarnList, List.mem_append] at hw
    rcases hw with h | h
    · split at h <;> simp_all [mkTimeSlotWarning]
    · exact ih (i + 1) w h

lemma imageWarnList_field (l : List BilingualSpeaker) (i : Nat) :
    ∀ w ∈ imageWarnList l i, w.field = "speaker.image" := by
  induction l generalizing i with
  | nil => simp [imageWarnList]
  | cons sp rest ih =>
    intro w hw
    simp only [imageWarnList, List.mem_append] at hw
    rcases hw with h | h
    · split at h <;> simp_all [mkImageWarning]
    · exact ih (i + 1) w h

lemma brOrphan_filter_speakers (catIds : List String) (entries) :
    (brOrphanWarns catIds entries).filter isSpeakersField = [] := by
  rw [List.filter_eq_nil_iff]
  intro w hw
  rcases List.mem_filterMap.1 hw with ⟨k, _, hk⟩
  split at hk
  · simp at hk
  · simp only [Option.some_inj] at hk
    simp [← hk, mkOrphanBRWarning, isSpeakersField]

lemma brNoSess_filter_speakers (catIds : List String) (entries) :
    (brNoSessWarns catIds entries).filter isSpeakersField = [] := by
  rw [List.filter_eq_nil_iff]
  intro w hw
  rcases List.mem_filterMap.1 hw with ⟨k, _, hk⟩
  split at hk
  · simp only [Option.some_inj] at hk
    simp [← hk, mkNoSessionsWarning, isSpeakersField]
  · simp at hk

lemma brTime_filter_speakers (buckets : List (Option (List BilingualSession))) :
    (brTimeWarns buckets).filter isSpeakersField = [] := by
  rw [List.filter_eq_nil_iff]
  intro w hw
  rcases List.mem_flatten.1 hw with ⟨l, hl, hwl⟩
  rcases List.mem_map.1 hl with ⟨b, _, hb⟩
  have := timeSlotWarnList_field (b.getD []) 0 w (hb ▸ hwl)
  simp [isSpeakersField, this]

lemma brImage_filter_speakers (buckets : List (Option (List BilingualSession))) :
    (brImageWarns buckets).filter isSpeakersField = [] := by
  rw [List.filter_eq_nil_iff]
  intro w hw
  rcases List.mem_flatten.1 hw with ⟨l, hl, hwl⟩
  rcases List.mem_map.1 hl with ⟨s, _, hsl⟩
  have := imageWarnList_field (s.speakers.getD []) 0 w (hsl ▸ hwl)
  simp [isSpeakersField, this]

lemma brDup_filter_speakers (buckets : List (Option (List BilingualSession))) :
    (brDupSpeakerWarns buckets).filter isSpeakersField = brDupSpeakerWarns buckets := by
  rw [List.filter_eq_self]
  intro w hw
  rcases List.mem_map.1 hw with ⟨id, _, hid⟩
  simp [← hid, mkDupSpeakerWarning, isSpeakersField]

/-- Strings quoted into a fixed template are recoverable: the template map
is injective. -/
lemma quoted_append_inj {p s a b : String} (h : p ++ a ++ s = p ++ b ++ s) : a = b := by
  have h' := congrArg String.data h
  simp only [String.data_append, List.append_assoc] at h'
  have h'' := List.append_cancel_left h'
  have h3 := List.append_cancel_right h''
  exact congrArg String.mk h3

lemma mkDupSpeakerWarning_inj : Function.Injective mkDupSpeakerWarning := by
  intro a b h
  have hm : (mkDupSpeakerWarning a).message = (mkDupSpeakerWarning b).message := by rw [h]
  exact quoted_append_inj hm

/-- **C4.** For every document whose `sessions` is a well-formed object
(each bucket an array), the business-rule validator's `speakers`-field
warnings are exactly the duplicate-speaker warnings, and for every
non-empty speaker id the warning for that id occurs exactly once when the
id occurs at least twice in the document and never when it occurs at most
once — one warning per distinct duplicated id, regardless of how many
extra occurrences there are. -/
theorem claim_C4 (d : BilingualScheduleData)
    (entries : List (String × Option (List BilingualSession)))
    (hss : d.sessions = some entries)
    (hall : ((entries.map (·.2)).all Option.isSome) = true) :
    ((validateBusinessRules (some d)).warnings.filter isSpeakersField =
      brDupSpeakerWarns (entries.map (·.2))) ∧
    ∀ id, id ≠ "" →
      (((validateBusinessRules (some d)).warnings.filter isSpeakersField).count
          (mkDupSpeakerWarning id) =
        if 2 ≤ (allSpeakerIds (entries.map (·.2))).count id then 1 else 0) := by
  have heq : (validateBusinessRules (some d)).warnings.filter isSpeakersField =
      brDupSpeakerWarns (entries.map (·.2)) := by
    rw [br_warnings_eq d entries hss hall, List.filter_append, List.filter_append,
      List.filter_append, List.filter_append, brOrphan_filter_speakers,
      brNoSess_filter_speakers, brDup_filter_speakers, brTime_filter_speakers,
      brImage_filter_speakers]
    simp
  refine ⟨heq, fun id hid => ?_⟩
  rw [heq]
  unfold brDupSpeakerWarns
  rw [List.count_map_of_injective _ _ mkDupSpeakerWarning_inj]
  have hnodup := dupScan_nodup (allSpeakerIds (entries.map (·.2))) [] [] List.nodup_nil
  split
  · rename_i hcnt
    exact List.count_eq_one_of_mem hnodup
      ((dupScan_spec (allSpeakerIds (entries.map (·.2))) id).2 ⟨hid, hcnt⟩)
  · rename_i hcnt
    rw [List.count_eq_zero]
    intro hmem
    exact hcnt ((dupScan_spec (allSpeakerIds (entries.map (·.2))) id).1 hmem).2

/-- A minimal speaker for the C4 instance. -/
def c4sp (i : String) : BilingualSpeaker :=
  ⟨i, .obj (some "n") (some "n"), .obj (some "r") (some "r"), some [], "img.png"⟩

/-- A minimal session with the given speakers. -/
def c4sess (sps : List BilingualSpeaker) : BilingualSession :=
  ⟨.obj (some "d") (some "d"), "10:15 - 10:50", .obj (some "t") (some "t"),
    .obj (some "c") (some "c"), some sps, none, none, .undef⟩

/-- Sessions with speaker `"x"` three times (across sessions) and `"y"` once. -/
def c4entries : List (String × Option (List BilingualSession)) :=
  [("a", some [c4sess [c4sp "x"], c4sess [c4sp "x"], c4sess [c4sp "x", c4sp "y"]])]

/-- The C4 instance document. -/
def c4doc : BilingualScheduleData :=
  ⟨some [], some [⟨.obj (some "n") (some "n"), .obj (some "r") (some "r"), "a"⟩],
    some c4entries⟩

/-- Witness for C4: the thrice-occurring id `"x"` yields exactly one warning
and the once-occurring id `"y"` yields none. -/
theorem claim_C4_witness :
    ((validateBusinessRules (some c4doc)).warnings.filter isSpeakersField =
      brDupSpeakerWarns (c4entries.map (·.2))) ∧
    ((validateBusinessRules (some c4doc)).warnings.filter isSpeakersField).count
      (mkDupSpeakerWarning "x") = 1 ∧
    ((validateBusinessRules (some c4doc)).warnings.filter isSpeakersField).count
      (mkDupSpeakerWarning "y") = 0 := by
  have h := claim_C4 c4doc c4entries rfl (by decide)
  refine ⟨h.1, ?_, ?_⟩
  · rw [h.2 "x" (by decide)]
    decide
  · rw [h.2 "y" (by decide)]
    decide

/-! ### C6: the time-slot warning condition

The claim words the condition on the raw string ("does not match the
documented pattern after trimming, nor contains the placeholder
substrings"), while the code trims before both tests.  The two coincide
because the placeholder substrings start and end with non-whitespace
characters, so an occurrence can never straddle the trimmed margins; this
is proved below via the `IsInfix` characterisation of `includes`. -/

lemma listHasPre_iff (l p : List Char) : listHasPre l p = true ↔ p <+: l := by
  induction l generalizing p with
  | nil =>
    cases p with
    | nil => simp [listHasPre]
    | cons c cs => simp [listHasPre]
  | cons c cs ih =>
    cases p with
    | nil => simp [listHasPre]
    | cons d ds =>
      simp only [listHasPre, Bool.and_eq_true, beq_iff_eq, List.cons_prefix_cons, ih]
      exact and_congr_left (fun _ => eq_comm)

lemma listHasSub_iff (l sub : List Char) : listHasSub sub l = true ↔ sub <:+: l := by
  induction l with
  | nil =>
    simp [listHasSub, List.isEmpty_iff]
  | cons c cs ih =>
    simp only [listHasSub, Bool.or_eq_true, listHasPre_iff, ih, List.infix_cons_iff]

lemma strIncludes_iff (s sub : String) :
    strIncludes s sub = true ↔ sub.data <:+: s.data :=
  listHasSub_iff s.data sub.data

/-- A search string with a non-whitespace head cannot start inside an
all-whitespace prefix. -/
lemma infix_white_left (pre l pat : List Char) (p0 : Char) (prest : List Char)
    (hpat : pat = p0 :: prest) (hp0 : jsIsWhitespace p0 = false)
    (hpw : ∀ c ∈ pre, jsIsWhitespace c = true) :
    (pat <:+: pre ++ l) ↔ (pat <:+: l) := by
  induction pre with
  | nil => simp
  | cons a pre ih =>
    have haw : jsIsWhitespace a = true := hpw a (by simp)
    have hrest : ∀ c ∈ pre, jsIsWhitespace c = true := fun c hc => hpw c (by simp [hc])
    constructor
    · intro h
      rw [List.cons_append] at h
      rcases List.infix_cons_iff.1 h with h | h
      · exfalso
        rw [hpat] at h
        have he := (List.cons_prefix_cons.1 h).1
        rw [← he] at haw
        rw [hp0] at haw
        simp at haw
      · exact (ih hrest).1 h
    · intro h
      exact h.trans (List.suffix_append (a :: pre) l).isInfix

/-- Mirror image: a search string with a non-whitespace last character
cannot end inside an all-whitespace suffix. -/
lemma infix_white_right (suf l pat : List Char) (q0 : Char) (qrest : List Char)
    (hpat : pat.reverse = q0 :: qrest) (hq0 : jsIsWhitespace q0 = false)
    (hsw : ∀ c ∈ suf, jsIsWhitespace c = true) :
    (pat <:+: l ++ suf) ↔ (pat <:+: l) := by
  rw [← @List.reverse_infix _ pat (l ++ suf), List.reverse_append,
    ← @List.reverse_infix _ pat l]
  exact infix_white_left suf.reverse l.reverse pat.reverse q0 qrest hpat hq0
    (fun c hc => hsw c (List.mem_reverse.1 hc))

/-- Every character list splits as whitespace margins around its trim. -/
lemma trim_decomp (l : List Char) :
    ∃ pre suf, l = pre ++ (jsTrimList l ++ suf) ∧
      (∀ c ∈ pre, jsIsWhitespace c = true) ∧ (∀ c ∈ suf, jsIsWhitespace c = true) := by
  refine ⟨l.takeWhile jsIsWhitespace,
    ((l.dropWhile jsIsWhitespace).reverse.takeWhile jsIsWhitespace).reverse, ?_, ?_, ?_⟩
  · conv_lhs => rw [← @List.takeWhile_append_dropWhile _ jsIsWhitespace l]
    congr 1
    conv_lhs => rw [← List.reverse_reverse (l.dropWhile jsIsWhitespace),
      ← @List.takeWhile_append_dropWhile _ jsIsWhitespace
        ((l.dropWhile jsIsWhitespace).reverse)]
    rw [List.reverse_append]
    rfl
  · intro c hc
    exact List.mem_takeWhile_imp hc
  · intro c hc
    rw [List.mem_reverse] at hc
    exact List.mem_takeWhile_imp hc

/-- Lower-casing fixes whitespace characters. -/
lemma toLower_white {c : Char} (h : jsIsWhitespace c = true) : c.toLower = c := by
  unfold jsIsWhitespace at h
  simp only [Bool.or_eq_true, beq_iff_eq] at h
  rcases h with ((((((h | h) | h) | h) | h) | h) | h) <;> subst h <;> decide

/-- `includes` of a whitespace-free-margin pattern is blind to trimming
(after lower-casing, which fixes whitespace). -/
lemma includes_lower_trim (t pat : String) (p0 : Char) (prest : List Char)
    (hpat : pat.data = p0 :: prest) (hp0 : jsIsWhitespace p0 = false)
    (q0 : Char) (qrest : List Char)
    (hrpat : pat.data.reverse = q0 :: qrest) (hq0 : jsIsWhitespace q0 = false) :
    strIncludes (jsToLower (jsTrim t)) pat = strIncludes (jsToLower t) pat := by
  obtain ⟨pre, suf, hdec, hpw, hsw⟩ := trim_decomp t.data
  have hL : (jsToLower t).data =
      pre ++ (((jsTrimList t.data).map Char.toLower) ++ suf) := by
    show t.data.map Char.toLower = _
    conv_lhs => rw [hdec]
    rw [List.map_append, List.map_append]
    have hpre : pre.map Char.toLower = pre := by
      have h1 : ∀ c ∈ pre, Char.toLower c = c := fun c hc => toLower_white (hpw c hc)
      rw [List.map_congr_left h1]; exact List.map_id _
    have hsuf : suf.map Char.toLower = suf := by
      have h1 : ∀ c ∈ suf, Char.toLower c = c := fun c hc => toLower_white (hsw c hc)
      rw [List.map_congr_left h1]; exact List.map_id _
    rw [hpre, hsuf]
  have hT : (jsToLower (jsTrim t)).data = (jsTrimList t.data).map Char.toLower := rfl
  rw [Bool.eq_iff_iff, strIncludes_iff, strIncludes_iff, hT, hL,
    infix_white_left pre _ pat.data p0 prest hpat hp0 hpw,
    infix_white_right suf _ pat.data q0 qrest hrpat hq0 hsw]

/-- The claim's warning condition, written from its words: a non-empty
string that neither matches the documented time-range pattern (after
trimming) nor contains, case-insensitively, one of the placeholder
substrings `tbd`, `all day`, `全天`. -/
def timeSlotShouldWarnSpec (t : String) : Bool :=
  t != "" && !timeRangeTest (jsTrim t).data &&
    !(strIncludes (jsToLower t) "tbd" || strIncludes (jsToLower t) "all day" ||
      strIncludes (jsToLower t) "全天")

/-- The code's guard (`session.timeSlot && !isValidTimeSlot(...)`) agrees
with the specification's condition. -/
lemma shouldWarn_eq (t : String) :
    (t != "" && !isValidTimeSlot t) = timeSlotShouldWarnSpec t := by
  by_cases ht : t = ""
  · subst ht; rfl
  · have htne : (t == "") = false := by rw [beq_eq_false_iff_ne]; exact ht
    have h1 := includes_lower_trim t "tbd" 't' ['b', 'd'] rfl (by decide)
      'd' ['b', 't'] rfl (by decide)
    have h2 := includes_lower_trim t "all day" 'a' ['l', 'l', ' ', 'd', 'a', 'y'] rfl
      (by decide) 'y' ['a', 'd', ' ', 'l', 'l', 'a'] rfl (by decide)
    have h3 := includes_lower_trim t "全天" '全' ['天'] rfl (by decide)
      '天' ['全'] rfl (by decide)
    unfold isValidTimeSlot timeSlotShouldWarnSpec
    rw [htne]
    simp only [Bool.false_eq_true, if_false]
    rw [h1, h2, h3]
    generalize strIncludes (jsToLower t) "tbd" = a1
    generalize strIncludes (jsToLower t) "all day" = a2
    generalize strIncludes (jsToLower t) "全天" = a3
    generalize timeRangeTest (jsTrim t).data = r
    generalize (t != "") = b
    cases a1 <;> cases a2 <;> cases a3 <;> cases r <;> cases b <;> rfl

/-- The per-bucket warning walk, with the guard in the specification's
wording. -/
def specTimeWarnList : List BilingualSession → Nat → List ValidationError
  | [], _ => []
  | s :: rest, i =>
    (if timeSlotShouldWarnSpec s.timeSlot then [mkTimeSlotWarning s.timeSlot i] else []) ++
    specTimeWarnList rest (i + 1)

lemma timeSlotWarnList_eq_spec (l : List BilingualSession) (i : Nat) :
    timeSlotWarnList l i = specTimeWarnList l i := by
  induction l generalizing i with
  | nil => rfl
  | cons s rest ih =>
    unfold timeSlotWarnList specTimeWarnList
    rw [shouldWarn_eq, ih]

/-- The predicate picking the time-slot warnings. -/
def isTimeField (w : ValidationError) : Bool :=
  w.field == "session.timeSlot"

lemma brOrphan_filter_time (catIds : List String) (entries) :
    (brOrphanWarns catIds entries).filter isTimeField = [] := by
  rw [List.filter_eq_nil_iff]
  intro w hw
  rcases List.mem_filterMap.1 hw with ⟨k, _, hk⟩
  split at hk
  · simp at hk
  · simp only [Option.some_inj] at hk
    simp [← hk, mkOrphanBRWarning, isTimeField]

lemma brNoSess_filter_time (catIds : List String) (entries) :
    (brNoSessWarns catIds entries).filter isTimeField = [] := by
  rw [List.filter_eq_nil_iff]
  intro w hw
  rcases List.mem_filterMap.1 hw with ⟨k, _, hk⟩
  split at hk
  · simp only [Option.some_inj] at hk
    simp [← hk, mkNoSessionsWarning, isTimeField]
  · simp at hk

lemma brDup_filter_time (buckets : List (Option (List BilingualSession))) :
    (brDupSpeakerWarns buckets).filter isTimeField = [] := by
  rw [List.filter_eq_nil_iff]
  intro w hw
  rcases List.mem_map.1 hw with ⟨id, _, hid⟩
  simp [← hid, mkDupSpeakerWarning, isTimeField]

lemma brImage_filter_time (buckets : List (Option (List BilingualSession))) :
    (brImageWarns buckets).filter isTimeField = [] := by
  rw [List.filter_eq_nil_iff]
  intro w hw
  rcases List.mem_flatten.1 hw with ⟨l, hl, hwl⟩
  rcases List.mem_map.1 hl with ⟨s, _, hsl⟩
  have := imageWarnList_field (s.speakers.getD []) 0 w (hsl ▸ hwl)
  simp [isTimeField, this]

lemma brTime_filter_time (buckets : List (Option (List BilingualSession))) :
    (brTimeWarns buckets).filter isTimeField = brTimeWarns buckets := by
  rw [List.filter_eq_self]
  intro w hw
  rcases List.mem_flatten.1 hw with ⟨l, hl, hwl⟩
  rcases List.mem_map.1 hl with ⟨b, _, hb⟩
  have := timeSlotWarnList_field (b.getD []) 0 w (hb ▸ hwl)
  simp [isTimeField, this]

/-- Each time-slot warning's message contains the literal offending string. -/
lemma timeWarn_msg_includes (t : String) (i : Nat) :
    strIncludes (mkTimeSlotWarning t i).message t = true := by
  rw [strIncludes_iff]
  show t.data <:+:
    ("Session has unusual time slot format: \x27" ++ t ++ "\x27").data
  simp only [String.data_append]
  exact ⟨"Session has unusual time slot format: \x27".data, "\x27".data, by simp⟩

/-- **C6.** Under a well-formed `sessions` object, the business-rule
validator's time-slot warnings are exactly one warning per session whose
`timeSlot` satisfies the documented condition — non-empty, not matching
the time-range pattern after trimming, and not containing `tbd`, `all day`
or `全天` case-insensitively — with the per-bucket walk spelled in the
specification's own wording; the code guard coincides with that condition
for every string; `"10:15 - 10:50"`, `"TBD"`, `"All day"` and `"全天"`
never warn; and each warning message contains the literal offending
string. -/
theorem claim_C6 (d : BilingualScheduleData)
    (entries : List (String × Option (List BilingualSession)))
    (hss : d.sessions = some entries)
    (hall : ((entries.map (·.2)).all Option.isSome) = true) :
    ((validateBusinessRules (some d)).warnings.filter isTimeField =
      ((entries.map (·.2)).map (fun b => specTimeWarnList (b.getD []) 0)).flatten) ∧
    (∀ t, (t != "" && !isValidTimeSlot t) = timeSlotShouldWarnSpec t) ∧
    (timeSlotShouldWarnSpec "10:15 - 10:50" = false ∧
     timeSlotShouldWarnSpec "TBD" = false ∧
     timeSlotShouldWarnSpec "All day" = false ∧
     timeSlotShouldWarnSpec "全天" = false) ∧
    (∀ t i, strIncludes (mkTimeSlotWarning t i).message t = true) := by
  refine ⟨?_, shouldWarn_eq, by refine ⟨?_, ?_, ?_, ?_⟩ <;> decide,
    timeWarn_msg_includes⟩
  rw [br_warnings_eq d entries hss hall, List.filter_append, List.filter_append,
    List.filter_append, List.filter_append, brOrphan_filter_time, brNoSess_filter_time,
    brDup_filter_time, brTime_filter_time, brImage_filter_time]
  simp only [List.nil_append, List.append_nil]
  unfold brTimeWarns
  apply congrArg List.flatten
  apply List.map_congr_left
  intro b _
  exact timeSlotWarnList_eq_spec (b.getD []) 0

/-- Witness for C6: a document with one conforming slot, one placeholder
and one malformed slot yields exactly one time-slot warning, for the
malformed one. -/
theorem claim_C6_witness :
    (validateBusinessRules (some ⟨some [], some [],
        some [("a", some [c4sess [], { c4sess [] with timeSlot := "TBD" },
          { c4sess [] with timeSlot := "later" }])]⟩)).warnings.filter isTimeField =
      [mkTimeSlotWarning "later" 2] := by
  have h := claim_C6 ⟨some [], some [],
      some [("a", some [c4sess [], { c4sess [] with timeSlot := "TBD" },
        { c4sess [] with timeSlot := "later" }])]⟩
    [("a", some [c4sess [], { c4sess [] with timeSlot := "TBD" },
      { c4sess [] with timeSlot := "later" }])] rfl (by decide)
  rw [h.1]
  decide

/-! ### C3: idempotence of the safe processor

Running the processor a second time is *not* silent in general — any
validation diagnostic of the input document survives normalization and is
reported again (see the counterexample).  What does hold is that a clean
run stays clean: if the first run reports nothing, the second reports
nothing.  The development below establishes the preserved shape. -/

lemma head_not_of_dropWhile (p : Char → Bool) :
    ∀ (l : List Char) (c : Char) (t : List Char), l.dropWhile p = c :: t → p c = false := by
  intro l
  induction l with
  | nil => intro c t h; simp at h
  | cons a rest ih =>
    intro c t h
    rw [List.dropWhile_cons] at h
    split at h
    · exact ih c t h
    · rename_i hpa
      cases h
      simpa using hpa

lemma dropWhile_of_head_not {p : Char → Bool} :
    ∀ {l : List Char}, (∀ c t, l = c :: t → p c = false) → l.dropWhile p = l := by
  intro l h
  cases l with
  | nil => rfl
  | cons c t => exact List.dropWhile_cons_of_neg (by simp [h c t rfl])

/-- Trimming is idempotent. -/
lemma jsTrimList_idem (l : List Char) : jsTrimList (jsTrimList l) = jsTrimList l := by
  set A := l.dropWhile jsIsWhitespace with hA
  set Y := A.reverse.dropWhile jsIsWhitespace with hY
  have hBY : jsTrimList l = Y.reverse := rfl
  -- the trim is a prefix of the front-trimmed list, so its head is not
  -- whitespace either
  have hBpre : Y.reverse <+: A := by
    rw [← List.reverse_reverse A]
    exact List.reverse_prefix.2 (hY ▸ List.dropWhile_suffix jsIsWhitespace)
  have hheadB : ∀ c t, Y.reverse = c :: t → jsIsWhitespace c = false := by
    intro c t hct
    rcases hBpre with ⟨u, hu⟩
    rw [hct] at hu
    exact head_not_of_dropWhile jsIsWhitespace l c (t ++ u)
      (by rw [← hA, ← hu, List.cons_append])
  have hheadY : ∀ c t, Y = c :: t → jsIsWhitespace c = false := fun c t hct =>
    head_not_of_dropWhile jsIsWhitespace A.reverse c t (hY ▸ hct)
  rw [hBY]
  show jsTrimList Y.reverse = Y.reverse
  unfold jsTrimList
  rw [dropWhile_of_head_not hheadB, List.reverse_reverse,
    dropWhile_of_head_not hheadY]

/-- `jsTrim` is idempotent. -/
lemma jsTrim_idem (s : String) : jsTrim (jsTrim s) = jsTrim s := by
  show (⟨jsTrimList (jsTrim s).data⟩ : String) = jsTrim s
  rw [show (jsTrim s).data = jsTrimList s.data from rfl, jsTrimList_idem]
  rfl

/-- A required bilingual field that validates with no error and no warning
is an object with both languages present and non-blank. -/
lemma vbtext_clean_shape (t : TextVal) (f : String)
    (he : (validateBilingualText t f true).errors = [])
    (hw : (validateBilingualText t f true).warnings = []) :
    ∃ e z, t = .obj (some e) (some z) ∧ jsTrim e ≠ "" ∧ jsTrim z ≠ "" := by
  cases t with
  | undef => simp [validateBilingualText, truthy, strWithEmptyTrim] at he
  | str s =>
    by_cases hs : jsTrim s = ""
    · by_cases hs0 : s = ""
      · simp [validateBilingualText, truthy, strWithEmptyTrim, hs0] at he
      · simp [validateBilingualText, truthy, strWithEmptyTrim, hs, hs0] at he
    · have hs0 : s ≠ "" := fun h0 => hs (by rw [h0]; rfl)
      simp [validateBilingualText, truthy, strWithEmptyTrim, hs, hs0] at hw
  | obj en zh =>
    by_cases hen : optTrimNonempty en = true
    · by_cases hzh : optTrimNonempty zh = true
      · cases en with
        | none => simp [optTrimNonempty] at hen
        | some e =>
          cases zh with
          | none => simp [optTrimNonempty] at hzh
          | some z =>
            refine ⟨e, z, rfl, ?_, ?_⟩
            · simpa [optTrimNonempty] using hen
            · simpa [optTrimNonempty] using hzh
      · have hzh' : optTrimNonempty zh = false := by simpa using hzh
        simp [validateBilingualText, truthy, strWithEmptyTrim, hen, hzh'] at hw
    · have hen' : optTrimNonempty en = false := by simpa using hen
      by_cases hzh : optTrimNonempty zh = true
      · simp [validateBilingualText, truthy, strWithEmptyTrim, hen', hzh] at hw
      · have hzh' : optTrimNonempty zh = false := by simpa using hzh
        simp [validateBilingualText, truthy, strWithEmptyTrim, hen', hzh'] at he

/-- A both-languages object extracts silently, yielding the trimmed side. -/
lemma safeGet_clean (e z : String) (he : jsTrim e ≠ "") (hz : jsTrim z ≠ "") :
    safeGetBilingualText (.obj (some e) (some z)) .en "" = (jsTrim e, []) ∧
    safeGetBilingualText (.obj (some e) (some z)) .zh "" = (jsTrim z, []) := by
  constructor <;> simp [safeGetBilingualText, truthy, he, hz]

/-- A both-languages object (non-blank on both sides) validates with no
error and no warning. -/
lemma vbtext_obj_clean (e z : String) (f : String) (he : jsTrim e ≠ "") (hz : jsTrim z ≠ "") :
    validateBilingualText (.obj (some e) (some z)) f true = ⟨true, [], []⟩ := by
  simp [validateBilingualText, truthy, strWithEmptyTrim, optTrimNonempty, he, hz]

/-- Day validation does not read its context parameter. -/
lemma day_ctx_irrel (day : BilingualDay) (c c' : String) :
    validateBilingualDay day c = validateBilingualDay day c' := rfl

/-- Clean day: each of the three fields validates cleanly. -/
lemma day_clean_fields (day : BilingualDay) (c : String)
    (he : (validateBilingualDay day c).errors = [])
    (hw : (validateBilingualDay day c).warnings = []) :
    ((validateBilingualText day.date "day.date" true).errors = [] ∧
      (validateBilingualText day.date "day.date" true).warnings = []) ∧
    ((validateBilingualText day.title "day.title" true).errors = [] ∧
      (validateBilingualText day.title "day.title" true).warnings = []) ∧
    ((validateBilingualText day.url "day.url" true).errors = [] ∧
      (validateBilingualText day.url "day.url" true).warnings = []) := by
  have hE : (validateBilingualDay day c).errors =
      (validateBilingualText day.date "day.date" true).errors ++
      (validateBilingualText day.title "day.title" true).errors ++
      (validateBilingualText day.url "day.url" true).errors := rfl
  have hW : (validateBilingualDay day c).warnings =
      (validateBilingualText day.date "day.date" true).warnings ++
      (validateBilingualText day.title "day.title" true).warnings ++
      (validateBilingualText day.url "day.url" true).warnings := rfl
  rw [hE] at he
  rw [hW] at hw
  simp only [List.append_eq_nil] at he hw
  exact ⟨⟨he.1.1, hw.1.1⟩, ⟨he.1.2, hw.1.2⟩, ⟨he.2, hw.2⟩⟩

/-- What a clean day turns into: one silent pass producing the trimmed url
pair, itself clean and silent under a second pass. -/
lemma processDay_clean (day : BilingualDay) (c : String)
    (he : (validateBilingualDay day c).errors = [])
    (hw : (validateBilingualDay day c).warnings = []) :
    (processDay day).2 = [] ∧
    (∀ c', (validateBilingualDay (processDay day).1 c').errors = [] ∧
      (validateBilingualDay (processDay day).1 c').warnings = []) ∧
    (processDay (processDay day).1).2 = [] := by
  obtain ⟨hdate, htitle, hurl⟩ := day_clean_fields day c he hw
  obtain ⟨e, z, hshape, hte, htz⟩ := vbtext_clean_shape day.url "day.url" hurl.1 hurl.2
  have hsg := safeGet_clean e z hte htz
  have hpd : processDay day =
      ({ day with url := .obj (some (jsTrim e)) (some (jsTrim z)) }, []) := by
    unfold processDay
    rw [hshape, hsg.1, hsg.2]
    rfl
  have hte' : jsTrim (jsTrim e) ≠ "" := by rw [jsTrim_idem]; exact hte
  have htz' : jsTrim (jsTrim z) ≠ "" := by rw [jsTrim_idem]; exact htz
  refine ⟨by rw [hpd], fun c' => ?_, ?_⟩
  · have hE : (validateBilingualDay (processDay day).1 c').errors =
        (validateBilingualText (processDay day).1.date "day.date" true).errors ++
        (validateBilingualText (processDay day).1.title "day.title" true).errors ++
        (validateBilingualText (processDay day).1.url "day.url" true).errors := rfl
    have hW : (validateBilingualDay (processDay day).1 c').warnings =
        (validateBilingualText (processDay day).1.date "day.date" true).warnings ++
        (validateBilingualText (processDay day).1.title "day.title" true).warnings ++
        (validateBilingualText (processDay day).1.url "day.url" true).warnings := rfl
    rw [hE, hW, hpd]
    simp only
    rw [vbtext_obj_clean _ _ _ hte' htz']
    simp [hdate.1, hdate.2, htitle.1, htitle.2]
  · rw [hpd]
    unfold processDay
    simp only
    rw [(safeGet_clean _ _ hte' htz').1, (safeGet_clean _ _ hte' htz').2]
    rfl

lemma daysList_clean_elems (ds : List BilingualDay) (i : Nat)
    (he : (validateDaysList ds i).1 = []) (hw : (validateDaysList ds i).2 = []) :
    ∀ day ∈ ds, (validateBilingualDay day "").errors = [] ∧
      (validateBilingualDay day "").warnings = [] := by
  induction ds generalizing i with
  | nil => simp
  | cons d rest ih =>
    simp only [validateDaysList, List.append_eq_nil] at he hw
    intro day hday
    rcases List.mem_cons.1 hday with h | h
    · subst h
      exact ⟨(day_ctx_irrel day "" _) ▸ he.1, (day_ctx_irrel day "" _) ▸ hw.1⟩
    · exact ih (i + 1) he.2 hw.2 day h

lemma daysList_clean_of (ds : List BilingualDay) (i : Nat)
    (h : ∀ day ∈ ds, (validateBilingualDay day "").errors = [] ∧
      (validateBilingualDay day "").warnings = []) :
    validateDaysList ds i = ([], []) := by
  induction ds generalizing i with
  | nil => rfl
  | cons d rest ih =>
    have hd := h d (by simp)
    have hrest := ih (i + 1) (fun day hday => h day (by simp [hday]))
    have he : (validateBilingualDay d ("days[" ++ toString i ++ "]")).errors = [] := hd.1
    have hw : (validateBilingualDay d ("days[" ++ toString i ++ "]")).warnings = [] := hd.2
    simp only [validateDaysList]
    rw [hrest, he, hw]
    rfl

/-- A clean speaker is untouched by the name/role coercion. -/
lemma speaker_proc_id (sp : BilingualSpeaker) (c : String)
    (he : (validateBilingualSpeaker sp c).errors = [])
    (hw : (validateBilingualSpeaker sp c).warnings = []) :
    ({ sp with name := coerceToPair sp.name, roleOrg := coerceToPair sp.roleOrg }) = sp := by
  have hE : (validateBilingualSpeaker sp c).errors =
      (if jsTrim sp.id == "" then
        [mkErrorCtx "speaker.id" "Speaker ID is required and must be a non-empty string" c]
      else []) ++
      (validateBilingualText sp.name "speaker.name" true).errors ++
      (validateBilingualText sp.roleOrg "speaker.roleOrg" true).errors := rfl
  have hW : (validateBilingualSpeaker sp c).warnings =
      (if jsTrim sp.image == "" then [mkWarningCtx "speaker.image" "Speaker image is missing" c]
      else []) ++
      (if sp.tags.isNone then [mkWarningCtx "speaker.tags" "Speaker tags should be an array" c]
      else []) ++
      (validateBilingualText sp.name "speaker.name" true).warnings ++
      (validateBilingualText sp.roleOrg "speaker.roleOrg" true).warnings := rfl
  rw [hE] at he
  rw [hW] at hw
  simp only [List.append_eq_nil] at he hw
  obtain ⟨en, zn, hnm, _, _⟩ :=
    vbtext_clean_shape sp.name "speaker.name" he.1.2 hw.1.2
  obtain ⟨er, zr, hro, _, _⟩ :=
    vbtext_clean_shape sp.roleOrg "speaker.roleOrg" he.2 hw.2
  obtain ⟨id, nm, ro, tg, im⟩ := sp
  simp only at hnm hro
  subst hnm
  subst hro
  rfl

lemma speakersList_clean_elems (ctx : String) (l : List BilingualSpeaker) (i : Nat)
    (he : (validateSpeakersList ctx l i).1 = [])
    (hw : (validateSpeakersList ctx l i).2 = []) :
    ∀ sp ∈ l, ∃ c, (validateBilingualSpeaker sp c).errors = [] ∧
      (validateBilingualSpeaker sp c).warnings = [] := by
  induction l generalizing i with
  | nil => simp
  | cons sp rest ih =>
    simp only [validateSpeakersList, List.append_eq_nil] at he hw
    intro x hx
    rcases List.mem_cons.1 hx with h | h
    · subst h
      exact ⟨_, he.1, hw.1⟩
    · exact ih (i + 1) he.2 hw.2 x h

/-- A clean session is untouched by normalization. -/
lemma session_proc_id (s : BilingualSession) (c : String)
    (he : (validateBilingualSession s c).errors = [])
    (hw : (validateBilingualSession s c).warnings = []) :
    processSession s = s := by
  rw [session_errors_eq] at he
  rw [session_warnings_eq] at hw
  simp only [List.append_eq_nil] at he hw
  have hspE := he.2
  have hspW := hw.2
  obtain ⟨l, hl⟩ : ∃ l, s.speakers = some l := by
    cases hsp : s.speakers with
    | none =>
      rw [show (sessionSpeakersPart s c).1 =
        [mkErrorCtx "session.speakers" "Session speakers must be an array" c] from by
          unfold sessionSpeakersPart; rw [hsp]] at hspE
      simp at hspE
    | some l => exact ⟨l, rfl⟩
  have hpart : sessionSpeakersPart s c = validateSpeakersList c l 0 := by
    unfold sessionSpeakersPart
    rw [hl]
  rw [hpart] at hspE hspW
  have hmap : l.map (fun sp =>
      { sp with name := coerceToPair sp.name, roleOrg := coerceToPair sp.roleOrg }) = l := by
    have := speakersList_clean_elems c l 0 hspE hspW
    have hcongr : ∀ sp ∈ l, (fun q => ({ q with name := coerceToPair q.name, roleOrg := coerceToPair q.roleOrg } : BilingualSpeaker)) sp = id sp := by
      intro sp hsp
      obtain ⟨c', he', hw'⟩ := this sp hsp
      exact speaker_proc_id sp c' he' hw'
    rw [List.map_congr_left hcongr]
    exact List.map_id l
  unfold processSession
  rw [hl]
  simp only [Option.getD_some]
  rw [hmap]
  obtain ⟨dt, ts, ti, co, spk, ca, ise, ro⟩ := s
  simp only at hl
  subst hl
  rfl

lemma sessionList_clean_elems (cid : String) (l : List BilingualSession) (i : Nat)
    (he : (validateSessionList cid l i).1 = [])
    (hw : (validateSessionList cid l i).2 = []) :
    ∀ s ∈ l, ∃ c, (validateBilingualSession s c).errors = [] ∧
      (validateBilingualSession s c).warnings = [] := by
  induction l generalizing i with
  | nil => simp
  | cons s rest ih =>
    simp only [validateSessionList, List.append_eq_nil] at he hw
    intro x hx
    rcases List.mem_cons.1 hx with h | h
    · subst h
      exact ⟨_, he.1, hw.1⟩
    · exact ih (i + 1) he.2 hw.2 x h

/-- Clean session entries are untouched by normalization (each bucket is an
array of clean sessions). -/
lemma entries_proc_id (catIds : List String)
    (entries : List (String × Option (List BilingualSession)))
    (he : (validateSessionsEntries catIds entries).1 = [])
    (hw : (validateSessionsEntries catIds entries).2 = []) :
    entries.map (fun p => (p.1, some ((p.2.getD []).map processSession))) = entries := by
  induction entries with
  | nil => rfl
  | cons p rest ih =>
    obtain ⟨cid, bucket⟩ := p
    have heSplit : (validateBucket cid bucket).1 = [] ∧
        (validateSessionsEntries catIds rest).1 = [] := by
      have : (validateSessionsEntries catIds ((cid, bucket) :: rest)).1 =
          (validateBucket cid bucket).1 ++ (validateSessionsEntries catIds rest).1 := rfl
      rw [this] at he
      simpa using he
    have hwSplit : (validateBucket cid bucket).2 = [] ∧
        (validateSessionsEntries catIds rest).2 = [] := by
      have : (validateSessionsEntries catIds ((cid, bucket) :: rest)).2 =
          (if catIds.contains cid then [] else [mkOrphanWarning cid]) ++
          (validateBucket cid bucket).2 ++ (validateSessionsEntries catIds rest).2 := rfl
      rw [this] at hw
      simp only [List.append_eq_nil] at hw
      exact ⟨hw.1.2, hw.2⟩
    obtain ⟨l, hl⟩ : ∃ l, bucket = some l := by
      cases hb : bucket with
      | none =>
        have : (validateBucket cid bucket).1 = [mkBucketError cid] := by
          unfold validateBucket
          rw [hb]
        rw [this] at heSplit
        simp at heSplit
      | some l => exact ⟨l, rfl⟩
    subst hl
    have hlist : (validateSessionList cid l 0).1 = [] ∧
        (validateSessionList cid l 0).2 = [] := by
      have h1 : validateBucket cid (some l) = validateSessionList cid l 0 := rfl
      exact ⟨h1 ▸ heSplit.1, h1 ▸ hwSplit.1⟩
    have hmap : l.map processSession = l := by
      have helems := sessionList_clean_elems cid l 0 hlist.1 hlist.2
      have hcongr : ∀ s ∈ l, processSession s = id s := by
        intro s hs
        obtain ⟨c', he', hw'⟩ := helems s hs
        exact session_proc_id s c' he' hw'
      rw [List.map_congr_left hcongr]
      exact List.map_id l
    simp only [List.map_cons, Option.getD_some, hmap]
    rw [ih heSplit.2 hwSplit.2]

/-- **C3 (corrected).** If the first run of `safeProcessBilingualSchedule`
invokes the error callback zero times, the second run (on the first run\x27s
output, with any language) invokes it zero times as well.  The unrestricted
claim — a second run is always silent — is false: validation diagnostics of
the input (for example an orphaned session category) survive normalization
and are reported again, see the counterexample. -/
theorem claim_C3 (d : BilingualScheduleData) (lang lang' : Lang)
    (h : (safeProcessBilingualSchedule (some d) lang).2 = []) :
    (safeProcessBilingualSchedule
      (safeProcessBilingualSchedule (some d) lang).1 lang').2 = [] := by
  have h2 : (safeProcessCore d).2 = [] := h
  rw [safeProcessCore_msgs_eq] at h2
  simp only [List.append_eq_nil] at h2
  obtain ⟨⟨hifE, hWmap⟩, _⟩ := h2
  have hwar : (validateScheduleDataCore d).warnings = [] := List.map_eq_nil_iff.1 hWmap
  have herr : (validateScheduleDataCore d).errors = [] := by
    by_cases hv : (validateScheduleDataCore d).isValid = true
    · exact (isValid_iff_of_len rfl).1 hv
    · have hb : (validateScheduleDataCore d).isValid = false := by
        cases hvb : (validateScheduleDataCore d).isValid
        · rfl
        · exact absurd hvb hv
      rw [hb] at hifE
      simp only [Bool.not_false, if_true] at hifE
      exact List.map_eq_nil_iff.1 hifE
  rw [scheduleCore_errors_eq] at herr
  rw [scheduleCore_warnings_eq] at hwar
  simp only [List.append_eq_nil] at herr hwar
  obtain ⟨⟨hdpE, hcpE⟩, hspE⟩ := herr
  obtain ⟨⟨hdpW, hcpW⟩, hspW⟩ := hwar
  obtain ⟨ds, hds⟩ : ∃ ds, d.days = some ds := by
    cases hdd : d.days with
    | none => rw [hdd] at hdpE; simp [daysPart] at hdpE
    | some ds => exact ⟨ds, rfl⟩
  obtain ⟨cs, hcs⟩ : ∃ cs, d.categories = some cs := by
    cases hcc : d.categories with
    | none => rw [hcc] at hcpE; simp [catsPart] at hcpE
    | some cs => exact ⟨cs, rfl⟩
  obtain ⟨entries, hss⟩ : ∃ es, d.sessions = some es := by
    cases hsx : d.sessions with
    | none => rw [hsx] at hspE; simp [sessPart] at hspE
    | some es => exact ⟨es, rfl⟩
  rw [hds] at hdpE hdpW
  rw [hcs] at hcpE hcpW
  rw [hss] at hspE hspW
  have hcat : catIdsOf d = cs.map (·.id) := by
    unfold catIdsOf
    rw [hcs]
    rfl
  rw [hcat] at hspE hspW
  have hdlE : (validateDaysList ds 0).1 = [] := hdpE
  have hdlW : (validateDaysList ds 0).2 = [] := hdpW
  have hclE : (validateCatsList cs 0 []).1 = [] := hcpE
  have hclW : (validateCatsList cs 0 []).2 = [] := hcpW
  have hseE : (validateSessionsEntries (cs.map (·.id)) entries).1 = [] := hspE
  have hseW : (validateSessionsEntries (cs.map (·.id)) entries).2 = [] := hspW
  have hdays := daysList_clean_elems ds 0 hdlE hdlW
  have hent := entries_proc_id (cs.map (·.id)) entries hseE hseW
  have hout1 : (safeProcessCore d).1 =
      ⟨some (((d.days.getD []).map processDay).map (·.1)), some (d.categories.getD []),
        some ((d.sessions.getD []).map (fun p =>
          (p.1, some ((p.2.getD []).map processSession))))⟩ := rfl
  rw [hds, hcs, hss] at hout1
  simp only [Option.getD_some] at hout1
  rw [hent] at hout1
  have hdays' : ∀ x ∈ (ds.map processDay).map (·.1),
      (validateBilingualDay x "").errors = [] ∧
      (validateBilingualDay x "").warnings = [] := by
    intro x hx
    obtain ⟨pr, hpr, hx⟩ := List.mem_map.1 hx
    obtain ⟨day, hday, hpd⟩ := List.mem_map.1 hpr
    subst hpd
    subst hx
    exact (processDay_clean day "" (hdays day hday).1 (hdays day hday).2).2.1 ""
  have hdl' := daysList_clean_of ((ds.map processDay).map (·.1)) 0 hdays'
  have hE' : (validateScheduleDataCore
      ⟨some ((ds.map processDay).map (·.1)), some cs, some entries⟩).errors =
      (validateDaysList ((ds.map processDay).map (·.1)) 0).1 ++
      (validateCatsList cs 0 []).1 ++
      (validateSessionsEntries (cs.map (·.id)) entries).1 := rfl
  have hW' : (validateScheduleDataCore
      ⟨some ((ds.map processDay).map (·.1)), some cs, some entries⟩).warnings =
      (validateDaysList ((ds.map processDay).map (·.1)) 0).2 ++
      (validateCatsList cs 0 []).2 ++
      (validateSessionsEntries (cs.map (·.id)) entries).2 := rfl
  have herr' : (validateScheduleDataCore
      ⟨some ((ds.map processDay).map (·.1)), some cs, some entries⟩).errors = [] := by
    rw [hE', hdl', hclE, hseE]
    rfl
  have hwar' : (validateScheduleDataCore
      ⟨some ((ds.map processDay).map (·.1)), some cs, some entries⟩).warnings = [] := by
    rw [hW', hdl', hclW, hseW]
    rfl
  have hv' := (isValid_iff_of_len rfl).2 herr'
  have hflat : ((((ds.map processDay).map (·.1)).map processDay).map (·.2)).flatten = [] := by
    rw [List.flatten_eq_nil_iff]
    intro l hl
    obtain ⟨pr, hpr, hl⟩ := List.mem_map.1 hl
    obtain ⟨x, hx, hpd⟩ := List.mem_map.1 hpr
    subst hpd
    subst hl
    exact (processDay_clean x "" (hdays' x hx).1 (hdays' x hx).2).1
  have hgoal : (safeProcessBilingualSchedule
      (safeProcessBilingualSchedule (some d) lang).1 lang').2 =
      (safeProcessCore (safeProcessCore d).1).2 := rfl
  rw [hgoal, hout1, safeProcessCore_msgs_eq, hv', hwar']
  simp only [Bool.not_true, Bool.false_eq_true, if_false, List.map_nil,
    List.nil_append, List.append_nil, Option.getD_some]
  exact hflat

/-- Closed instance for the corrected C3: the empty-collections document is
processed silently, so its second run is silent too. -/
theorem claim_C3_witness :
    (safeProcessBilingualSchedule (some emptyDoc) .en).2 = [] ∧
    (safeProcessBilingualSchedule
      (safeProcessBilingualSchedule (some emptyDoc) .en).1 .en).2 = [] :=
  ⟨rfl, claim_C3 emptyDoc .en .en rfl⟩

/-- A document whose sessions object keys a category id that is not in the
categories array.  Normalization does not remove the entry, so the orphan
warning is re-reported on every run. -/
def c3doc : BilingualScheduleData := ⟨some [], some [], some [("a", some [])]⟩

/-- **C3, original statement refuted.** On `c3doc` the second run of the
safe processor still invokes the error callback (the orphaned-category
warning recurs), so a second run is not always silent. -/
theorem claim_C3_counterexample :
    (safeProcessBilingualSchedule
      (safeProcessBilingualSchedule (some c3doc) .en).1 .en).2 ≠ [] := by
  decide

end Paris2026
